import Mathlib

/-!
Shallow embedding of the task-scheduling core of QCFractal: the task socket
(TaskSocket.claim_tasks and TaskSocket.update_finished from
qcfractal/components/tasks/sockets.py) and the torsiondrive service engine
(TorsiondriveRecordSocket.iterate_service and _submit_optimizations from
qcfractal/components/torsiondrive/record_socket.py).

Database rows are modelled as plain structures, the database as lists of
rows, and each socket call as a pure function from a database state to a
new database state together with its return value.  A call that raises a
typed error is modelled with Except; the transactional semantics (a raised
error rolls the whole session back) is reflected by the error constructor
carrying no database state.
-/

namespace QCFractal

/-- Status of a record (qcportal RecordStatusEnum). -/
inductive RecordStatusEnum where
  | complete
  | invalid
  | running
  | error
  | waiting
  | cancelled
  | deleted
deriving DecidableEq, Repr

/-- Status of a compute manager (qcportal ManagerStatusEnum). -/
inductive ManagerStatusEnum where
  | active
  | inactive
deriving DecidableEq, Repr

/-- One entry of a record's compute history: the status at completion time,
the manager that produced it, and the error type of the result (if the entry
records a failure). -/
structure HistoryEntry where
  h_status : RecordStatusEnum
  h_manager : String
  h_error_type : Option String
deriving DecidableEq, Repr

/-- A row of the base_record table (BaseRecordORM), restricted to the fields
read or written by the task socket. -/
structure RecordRow where
  record_id : Nat
  status : RecordStatusEnum
  manager_name : Option String
  modified_on : Nat
  compute_history : List HistoryEntry
deriving DecidableEq, Repr

/-- A row of the task_queue table (TaskQueueORM).  The available column is
the denormalized flag added by migration 12e2ba353ee6, which backfills it as
available = (record status == waiting) and builds the claim-ordering partial
index over it. -/
structure TaskRow where
  task_id : Nat
  record_id : Nat
  tag : String
  priority : Nat
  required_programs : List String
  available : Bool
  created_on : Nat
deriving DecidableEq, Repr

/-- A row of the compute_manager table (ComputeManagerORM), restricted to the
fields read or written by the task socket.  programs holds the keys of the
manager's program map. -/
structure ManagerRow where
  name : String
  m_status : ManagerStatusEnum
  programs : List String
  tags : List String
  claimed : Nat
  successes : Nat
  failures : Nat
  rejected : Nat
deriving DecidableEq, Repr

/-- The database state visible to the task socket.  now models the value of
datetime.utcnow() during the call. -/
structure DB where
  managers : List ManagerRow
  tasks : List TaskRow
  records : List RecordRow
  now : Nat
deriving DecidableEq, Repr

/-- Typed error raised by the task socket
(qcportal.exceptions.ComputeManagerError). -/
structure ComputeManagerError where
  msg : String
deriving DecidableEq, Repr

def findManager (db : DB) (name : String) : Option ManagerRow :=
  db.managers.find? (fun m => m.name == name)

def findTask (db : DB) (tid : Nat) : Option TaskRow :=
  db.tasks.find? (fun t => t.task_id == tid)

def findRecord (db : DB) (rid : Nat) : Option RecordRow :=
  db.records.find? (fun r => r.record_id == rid)

/-- Write back a record row (the ORM object is mutated in place; here the
row with the same id is replaced). -/
def setRecord (db : DB) (r : RecordRow) : DB :=
  { db with records := db.records.map (fun x => if x.record_id == r.record_id then r else x) }

/-- Write back a manager row. -/
def setManager (db : DB) (m : ManagerRow) : DB :=
  { db with managers := db.managers.map (fun x => if x.name == m.name then m else x) }

/-- Shape of one result submitted by a manager (one of AllResultTypes).
success is the payload's success field; is_failed_operation tells whether the
payload is a qcelemental FailedOperation; error_type is the error type of a
FailedOperation payload; apply_raises models whether applying this result's
outcome raises an unhandled exception inside the per-task try block. -/
structure ResultPayload where
  success : Bool
  is_failed_operation : Bool
  error_type : Option String
  apply_raises : Bool
deriving DecidableEq, Repr

/-- The auto_reset part of the server configuration; update_finished itself
reads only the enabled flag, the remaining options are consumed by the
should_reset policy. -/
structure AutoResetConfig where
  enabled : Bool
deriving DecidableEq, Repr

/-- The error type tag of synthetic internal failures. -/
def internal_fractal_error : String := "internal_fractal_error"

/-- Modelled from the spec: the record store's polymorphic
update_failed_task(record, failed_result, manager) appends a failure entry
to the compute history and puts the record into the error status.  The
record subsocket implementations are not part of the sources. -/
def update_failed_task (rec : RecordRow) (fail_error_type : Option String)
    (manager_name : String) : RecordRow :=
  { rec with
      status := RecordStatusEnum.error
      compute_history :=
        rec.compute_history ++ [⟨RecordStatusEnum.error, manager_name, fail_error_type⟩] }

/-- Modelled from the spec: update_completed_task(record, result, manager)
appends a success entry to the compute history and puts the record into the
complete status.  The record subsocket implementations are not part of the
sources. -/
def update_completed_task (rec : RecordRow) (manager_name : String) : RecordRow :=
  { rec with
      status := RecordStatusEnum.complete
      compute_history :=
        rec.compute_history ++ [⟨RecordStatusEnum.complete, manager_name, none⟩] }

/-- The per-row effect of the batched reset: a failed record in the batch
goes back to waiting with its manager ownership cleared; any other row is
untouched. -/
def resetRow (ids : List Nat) (r : RecordRow) : RecordRow :=
  if ids.contains r.record_id && r.status == RecordStatusEnum.error then
    { r with status := RecordStatusEnum.waiting, manager_name := none }
  else r

/-- Modelled from the spec: records.reset reverts failed records to waiting
so their tasks are regenerated, preserving history.  The record socket's
reset is not part of the sources. -/
def resetRecords (db : DB) (ids : List Nat) : DB :=
  { db with records := db.records.map (resetRow ids) }

/-- Return metadata of update_finished (qcportal TaskReturnMetadata). -/
structure TaskReturnMetadata where
  rejected_info : List (Nat × String)
  accepted_ids : List Nat
deriving DecidableEq, Repr

/-- Accumulated state of the per-result loop of TaskSocket.update_finished. -/
structure LoopState where
  db : DB
  tasks_success : List Nat
  tasks_failures : List Nat
  tasks_rejected : List (Nat × String)
  to_be_reset : List Nat
  all_notifications : List (Nat × RecordStatusEnum)
deriving DecidableEq, Repr

/-- Except-branch of the per-result loop: the nested transaction is rolled
back (so the record reverts to its row from before the branch), a synthetic
FailedOperation tagged internal_fractal_error is applied through
update_failed_task, and the task is rejected with reason Internal server
error. -/
def internalErrorStep (st : LoopState) (task_id : Nat) (rec : RecordRow)
    (manager_name : String) : LoopState :=
  let rec' := update_failed_task rec (some internal_fractal_error) manager_name
  { st with
      db := setRecord st.db rec'
      tasks_rejected := st.tasks_rejected ++ [(task_id, "Internal server error")]
      all_notifications := st.all_notifications ++ [(rec.record_id, RecordStatusEnum.error)] }

/-- One iteration of the per-result loop of update_finished, processing one
(task_id, result) pair inside its own nested transaction.  sr is the
should_reset policy predicate from reset_logic, kept as a parameter (its
module is not part of the sources).  A task whose record row is missing is
not returned by the select because the statement inner-joins the task to its
base record, so it is rejected as nonexistent. -/
def updateFinishedStep (sr : RecordRow → AutoResetConfig → Bool) (cfg : AutoResetConfig)
    (manager_name : String) (st : LoopState) (pair : Nat × ResultPayload) : LoopState :=
  let task_id := pair.1
  let result := pair.2
  match findTask st.db task_id with
  | none =>
      { st with tasks_rejected :=
          st.tasks_rejected ++ [(task_id, "Task does not exist in the task queue")] }
  | some task =>
    match findRecord st.db task.record_id with
    | none =>
        { st with tasks_rejected :=
            st.tasks_rejected ++ [(task_id, "Task does not exist in the task queue")] }
    | some rec =>
      if rec.status != RecordStatusEnum.running then
        { st with tasks_rejected :=
            st.tasks_rejected ++ [(task_id, "Task is not in a running state")] }
      else if rec.manager_name != some manager_name then
        { st with tasks_rejected :=
            st.tasks_rejected ++ [(task_id, "Task is claimed by another manager")] }
      else if result.success == false && result.is_failed_operation then
        if result.apply_raises then internalErrorStep st task_id rec manager_name
        else
          let rec' := update_failed_task rec result.error_type manager_name
          { st with
              db := setRecord st.db rec'
              tasks_failures := st.tasks_failures ++ [task_id]
              to_be_reset :=
                if cfg.enabled && sr rec' cfg then st.to_be_reset ++ [rec.record_id]
                else st.to_be_reset
              all_notifications :=
                st.all_notifications ++ [(rec.record_id, RecordStatusEnum.error)] }
      else if result.success != true then
        if result.apply_raises then internalErrorStep st task_id rec manager_name
        else
          let rec' := update_failed_task rec (some internal_fractal_error) manager_name
          { st with
              db := setRecord st.db rec'
              tasks_rejected :=
                st.tasks_rejected ++ [(task_id, "Returned success=False, but not a FailedOperation")]
              all_notifications :=
                st.all_notifications ++ [(rec.record_id, RecordStatusEnum.error)] }
      else
        if result.apply_raises then internalErrorStep st task_id rec manager_name
        else
          let rec' := update_completed_task rec manager_name
          { st with
              db := setRecord st.db rec'
              tasks_success := st.tasks_success ++ [task_id]
              all_notifications :=
                st.all_notifications ++ [(rec.record_id, RecordStatusEnum.complete)] }

/-- The per-result loop of update_finished over all submitted pairs, in the
insertion order of the supplied mapping. -/
def processResults (sr : RecordRow → AutoResetConfig → Bool) (cfg : AutoResetConfig)
    (manager_name : String) (db : DB) (results : List (Nat × ResultPayload)) : LoopState :=
  results.foldl (updateFinishedStep sr cfg manager_name) ⟨db, [], [], [], [], []⟩

/-- TaskSocket.update_finished: insert data from finished calculations.  The
manager row is looked up and checked first (the whole call fails with a
ComputeManagerError if it is absent or not active); the results are then
processed pair by pair; after the loop the manager counters are updated and
the queued automatic resets are applied in one batch. -/
def update_finished (sr : RecordRow → AutoResetConfig → Bool) (cfg : AutoResetConfig)
    (db : DB) (manager_name : String) (results : List (Nat × ResultPayload)) :
    Except ComputeManagerError (DB × TaskReturnMetadata) :=
  match findManager db manager_name with
  | none => Except.error ⟨"Manager " ++ manager_name ++ " does not exist"⟩
  | some manager =>
    if manager.m_status != ManagerStatusEnum.active then
      Except.error ⟨"Manager " ++ manager_name ++ " is not active"⟩
    else
      let st := processResults sr cfg manager_name db results
      let manager' :=
        { manager with
            successes := manager.successes + st.tasks_success.length
            failures := manager.failures + st.tasks_failures.length
            rejected := manager.rejected + st.tasks_rejected.length }
      let db1 := setManager st.db manager'
      let db2 :=
        if cfg.enabled && !st.to_be_reset.isEmpty then resetRecords db1 st.to_be_reset else db1
      Except.ok (db2, ⟨st.tasks_rejected, st.tasks_success ++ st.tasks_failures⟩)

/-- Modelled from the spec: qcportal.utils.calculate_limit clamps a requested
limit to the configured maximum, and an omitted limit means the maximum.
The qcportal.utils module is not part of the sources. -/
def calculate_limit (max_limit : Nat) (given_limit : Option Nat) : Nat :=
  match given_limit with
  | none => max_limit
  | some l => min l max_limit

/-- Order of the claim select: priority descending, then created_on
(creation order) ascending. -/
def claimOrder (a b : TaskRow) : Prop :=
  b.priority < a.priority ∨ (a.priority = b.priority ∧ a.created_on ≤ b.created_on)

instance : DecidableRel claimOrder := fun a b => by
  unfold claimOrder
  infer_instance

/-- The filter of the claim select for one manager tag: the record status is
waiting, the task's required programs are contained in the manager's
programs, and the task's tag matches (a manager tag star pulls anything).
A task whose record row is missing is excluded by the inner join. -/
def taskEligible (db : DB) (programs : List String) (tag : String) (t : TaskRow) : Bool :=
  (match findRecord db t.record_id with
   | some r => r.status == RecordStatusEnum.waiting
   | none => false)
  && t.required_programs.all (fun p => programs.contains p)
  && (tag == "*" || t.tag == tag)

/-- The claim select for one manager tag: filter, order by priority
descending then created_on, limit. -/
def tagSelect (db : DB) (programs : List String) (tag : String) (lim : Nat) : List TaskRow :=
  (List.insertionSort claimOrder (db.tasks.filter (taskEligible db programs tag))).take lim

/-- Update the records of the claimed tasks: status running, manager_name
set to the claiming manager, modified_on bumped to now. -/
def applyClaim (db : DB) (manager_name : String) (items : List TaskRow) : DB :=
  items.foldl (fun d t =>
    match findRecord d t.record_id with
    | some r =>
        setRecord d
          { r with
              status := RecordStatusEnum.running
              manager_name := some manager_name
              modified_on := d.now }
    | none => d) db

/-- The per-tag loop of claim_tasks: iterate the manager's tags in their
configured order, claiming up to the remaining limit for each tag and
stopping once the limit is reached. -/
def claimLoop (manager_name : String) (programs : List String) (limit : Nat) :
    DB → List String → List TaskRow → DB × List TaskRow
  | db, [], found => (db, found)
  | db, tag :: rest, found =>
      let new_limit := limit - found.length
      if new_limit = 0 then (db, found)
      else
        let new_items := tagSelect db programs tag new_limit
        claimLoop manager_name programs limit
          (applyClaim db manager_name new_items) rest (found ++ new_items)

/-- TaskSocket.claim_tasks: claim/assign tasks for a manager.  The requested
limit is clamped to the configured maximum before any selection; the manager
row is looked up and checked (the whole call fails with a
ComputeManagerError if it is absent or not active); then the per-tag loop
runs and the manager's claimed counter is incremented by the total number of
claimed tasks. -/
def claim_tasks (tasks_claim_limit : Nat) (db : DB) (manager_name : String)
    (limit : Option Nat) : Except ComputeManagerError (DB × List TaskRow) :=
  let lim := calculate_limit tasks_claim_limit limit
  match findManager db manager_name with
  | none => Except.error ⟨"Manager does not exist!"⟩
  | some manager =>
    if manager.m_status != ManagerStatusEnum.active then
      Except.error ⟨"Manager is not active!"⟩
    else
      let out := claimLoop manager_name manager.programs lim db manager.tags []
      let db2 := setManager out.1 { manager with claimed := manager.claimed + out.2.length }
      Except.ok (db2, out.2)

/-!
The torsiondrive service engine.  The opaque service_state blob is a type
parameter σ, molecule geometries are a type parameter γ, and the external
torsiondrive.td_api package is an abstract driver record.
-/

/-- One entry of a service's dependency list (ServiceDependencyORM): the id
of the awaited sub-record and the correlation extras attached by the driver
(the td_api_key of the logical sub-job and the position within it). -/
structure ServiceDependency where
  record_id : Nat
  td_api_key : String
  position : Nat
deriving DecidableEq, Repr

/-- One entry of a torsiondrive's optimization history
(TorsiondriveOptimizationORM): the optimization id, the grid key, and the
energy column (the final energy of the optimization, None while it has not
produced one). -/
structure TDOpt where
  optimization_id : Nat
  key : String
  energy : Option Int
deriving DecidableEq, Repr

/-- A torsiondrive record (TorsiondriveRecordORM) as seen by the service
engine: its id, its accumulated optimization history, and its stdout
output. -/
structure TDRecord where
  record_id : Nat
  optimizations : List TDOpt
  stdout : String
deriving DecidableEq, Repr

/-- A row of the service queue (ServiceQueueORM) for a torsiondrive record:
submission settings, the opaque service state, and the current dependency
list. -/
structure ServiceQueue (σ : Type) where
  record_id : Nat
  compute_tag : String
  compute_priority : Nat
  find_existing : Bool
  service_state : σ
  dependencies : List ServiceDependency
deriving DecidableEq, Repr

/-- A sub-optimization record as read by the service engine when collecting
dependency results. -/
structure OptRecord where
  initial_molecule_id : Nat
  final_molecule_id : Nat
  energies : List Int
deriving DecidableEq, Repr

/-- The torsiondrive domain driver: the external torsiondrive.td_api package
together with qcportal's serialize_key, kept abstract.  update_state folds
the collected per-key results into the state; next_jobs yields the next
batch of jobs (td_api_key to the list of new geometries), also advancing the
state; collect_lowest_energies reports the minimum energy per grid key;
ser_key maps a td_api_key to the grid key stored on optimization history
entries; captured is the stdout printed while stepping the state. -/
structure TDDriver (σ γ : Type) where
  update_state : σ → List (String × List (γ × γ × Option Int)) → σ
  next_jobs : σ → σ × List (String × List γ)
  collect_lowest_energies : σ → List (String × Option Int)
  ser_key : String → String
  captured : σ → String

/-- The result triple collected for one dependency: initial geometry, final
geometry, and the last energy of the optimization's trajectory
(energies[-1]; the source indexes the trajectory, which is nonempty for a
successfully finished optimization).  opt_store models the record store
lookup of the dependency's optimization record and mol_geom the molecule
store lookup of a geometry. -/
def depResult {γ : Type} (opt_store : Nat → OptRecord) (mol_geom : Nat → γ)
    (d : ServiceDependency) : γ × γ × Option Int :=
  let opt := opt_store d.record_id
  (mol_geom opt.initial_molecule_id, mol_geom opt.final_molecule_id, opt.energies.getLast?)

/-- Append a value to the entry of a key in a keyed association list,
creating the key at the end if absent (Python dict setdefault plus append). -/
def insertKeyed {ρ : Type} (acc : List (String × List ρ)) (key : String) (v : ρ) :
    List (String × List ρ) :=
  if acc.any (fun kv => kv.1 == key) then
    acc.map (fun kv => if kv.1 == key then (kv.1, kv.2 ++ [v]) else kv)
  else acc ++ [(key, [v])]

/-- The task_results mapping of iterate_service: dependencies sorted by
their position extra, then grouped by their td_api_key extra in order of
first appearance. -/
def buildTaskResults {γ : Type} (opt_store : Nat → OptRecord) (mol_geom : Nat → γ)
    (deps : List ServiceDependency) : List (String × List (γ × γ × Option Int)) :=
  (List.insertionSort (fun a b => a.position ≤ b.position) deps).foldl
    (fun acc d => insertKeyed acc d.td_api_key (depResult opt_store mol_geom d)) []

/-- Keys of a list in order of first appearance (Python dict insertion
order). -/
def dedupFirst (l : List String) : List String :=
  l.foldl (fun acc k => if acc.contains k then acc else acc ++ [k]) []

/-- The min_energies mapping of iterate_service: the energy of every
optimization history entry grouped by its key in entry order, then the
minimum per key (None for a key with no recorded energy). -/
def minEnergies (opts : List TDOpt) : List (String × Option Int) :=
  (dedupFirst (opts.map (fun x => x.key))).map (fun k =>
    (k, ((opts.filter (fun x => x.key == k)).filterMap (fun x => x.energy)).min?))

/-- Python dict equality for keyed association lists with distinct keys:
the same key sets with equal values. -/
def dictEq (a b : List (String × Option Int)) : Bool :=
  a.all (fun kv => b.lookup kv.1 == some kv.2) && b.all (fun kv => a.lookup kv.1 == some kv.2)

/-- One key of the batch in _submit_optimizations: one optimization per
geometry is submitted and recorded as a fresh dependency (extras holding the
td_api_key and the position of the geometry) and as an optimization history
entry under the serialized grid key.

Modelled from the spec: the optimization record socket's add is not part of
the sources; per the source comment the returned ids are in the same order
as the molecules, modelled here as the fresh ids nid, nid+1, ...  The
optimization specification and constrained molecule payloads do not affect
the dependency bookkeeping and stay with that collaborator. -/
def submitStep {σ γ : Type} (ser_key : String → String)
    (acc : TDRecord × ServiceQueue σ × Nat) (kv : String × List γ) :
    TDRecord × ServiceQueue σ × Nat :=
  let td1 := acc.1
  let svc1 := acc.2.1
  let nid := acc.2.2
  let n := kv.2.length
  let opt_key := ser_key kv.1
  let new_deps := (List.range n).map (fun i => ServiceDependency.mk (nid + i) kv.1 i)
  let new_opts := (List.range n).map (fun i => TDOpt.mk (nid + i) opt_key none)
  ({ td1 with optimizations := td1.optimizations ++ new_opts },
   { svc1 with dependencies := svc1.dependencies ++ new_deps },
   nid + n)

/-- TorsiondriveRecordSocket._submit_optimizations: the existing dependency
list is deleted in full, then the batch is submitted key by key. -/
def submit_optimizations {σ γ : Type} (td : TDRecord) (svc : ServiceQueue σ)
    (ser_key : String → String) (next_tasks : List (String × List γ)) (next_id : Nat) :
    TDRecord × ServiceQueue σ × Nat :=
  next_tasks.foldl (submitStep ser_key) (td, { svc with dependencies := [] }, next_id)

/-- TorsiondriveRecordSocket.iterate_service: collect the dependency results
(sorted by position, grouped by td_api_key), step the torsiondrive state,
and either submit the next batch of optimizations (done = false) or run the
final consistency check of the driver's lowest energies against the recorded
minimum energies - raising a RuntimeError on mismatch, modelled as
Except.error - and return done = true.  In both branches the captured driver
stdout is appended to the record's output and the new service state is
persisted in full.  next_id is the id allocator of the record store. -/
def iterate_service {σ γ : Type} (drv : TDDriver σ γ) (opt_store : Nat → OptRecord)
    (mol_geom : Nat → γ) (td : TDRecord) (svc : ServiceQueue σ) (next_id : Nat) :
    Except String (TDRecord × ServiceQueue σ × Nat × Bool) :=
  let task_results := buildTaskResults opt_store mol_geom svc.dependencies
  let s1 := drv.update_state svc.service_state task_results
  let s2 := (drv.next_jobs s1).1
  let next_tasks := (drv.next_jobs s1).2
  if 0 < next_tasks.length then
    let out := submit_optimizations td { svc with service_state := s2 } drv.ser_key next_tasks next_id
    let td' := { out.1 with stdout := out.1.stdout ++ "\n" ++ drv.captured s2 }
    Except.ok (td', out.2.1, out.2.2, decide (next_tasks.length = 0))
  else
    let lowest := drv.collect_lowest_energies s2
    let mins := minEnergies td.optimizations
    if dictEq lowest mins = false then
      Except.error "Minimum energies reported by the torsiondrive package do not match ours!"
    else
      let td' := { td with stdout := td.stdout ++ "\n" ++ drv.captured s2 }
      Except.ok (td', { svc with service_state := s2 }, next_id, decide (next_tasks.length = 0))

/-!
Helper lemmas about row lookup and write-back.
-/

@[simp]
theorem setRecord_tasks (db : DB) (r : RecordRow) : (setRecord db r).tasks = db.tasks := rfl

@[simp]
theorem setRecord_managers (db : DB) (r : RecordRow) : (setRecord db r).managers = db.managers := rfl

@[simp]
theorem setRecord_now (db : DB) (r : RecordRow) : (setRecord db r).now = db.now := rfl

@[simp]
theorem setManager_records (db : DB) (m : ManagerRow) : (setManager db m).records = db.records := rfl

@[simp]
theorem setManager_tasks (db : DB) (m : ManagerRow) : (setManager db m).tasks = db.tasks := rfl

@[simp]
theorem resetRecords_tasks (db : DB) (ids : List Nat) : (resetRecords db ids).tasks = db.tasks := rfl

@[simp]
theorem resetRecords_managers (db : DB) (ids : List Nat) :
    (resetRecords db ids).managers = db.managers := rfl

theorem findRecord_setRecord_ne (db : DB) (r : RecordRow) (rid : Nat)
    (h : rid ≠ r.record_id) : findRecord (setRecord db r) rid = findRecord db rid := by
  show (db.records.map fun x => if x.record_id == r.record_id then r else x).find?
      (fun x => x.record_id == rid) = db.records.find? (fun x => x.record_id == rid)
  induction db.records with
  | nil => rfl
  | cons x xs ih =>
    rw [List.map_cons]
    by_cases hx : x.record_id = r.record_id
    · rw [if_pos (show (x.record_id == r.record_id) = true by simp [hx])]
      rw [List.find?_cons_of_neg _ (by simp [Ne.symm h]),
        List.find?_cons_of_neg _ (by simp [hx, Ne.symm h])]
      exact ih
    · rw [if_neg (show ¬(x.record_id == r.record_id) = true by simp [hx])]
      by_cases hxid : x.record_id = rid
      · rw [List.find?_cons_of_pos _ (by simp [hxid]), List.find?_cons_of_pos _ (by simp [hxid])]
      · rw [List.find?_cons_of_neg _ (by simp [hxid]), List.find?_cons_of_neg _ (by simp [hxid])]
        exact ih

theorem findRecord_setRecord_self (db : DB) (r : RecordRow) :
    findRecord (setRecord db r) r.record_id = (findRecord db r.record_id).map (fun _ => r) := by
  show (db.records.map fun x => if x.record_id == r.record_id then r else x).find?
      (fun x => x.record_id == r.record_id) =
      (db.records.find? (fun x => x.record_id == r.record_id)).map (fun _ => r)
  induction db.records with
  | nil => rfl
  | cons x xs ih =>
    rw [List.map_cons]
    by_cases hx : x.record_id = r.record_id
    · rw [if_pos (show (x.record_id == r.record_id) = true by simp [hx])]
      rw [List.find?_cons_of_pos _ (by simp), List.find?_cons_of_pos _ (by simp [hx])]
      rfl
    · rw [if_neg (show ¬(x.record_id == r.record_id) = true by simp [hx])]
      rw [List.find?_cons_of_neg _ (by simp [hx]), List.find?_cons_of_neg _ (by simp [hx])]
      exact ih

/-- A looked-up record row carries the id it was looked up by. -/
theorem findRecord_id (db : DB) (i : Nat) (r : RecordRow) (h : findRecord db i = some r) :
    r.record_id = i := by
  have := List.find?_some h
  simpa using this

/-- A looked-up task row carries the id it was looked up by. -/
theorem findTask_id (db : DB) (i : Nat) (t : TaskRow) (h : findTask db i = some t) :
    t.task_id = i := by
  have := List.find?_some h
  simpa using this

/-- A looked-up task row is one of the task rows. -/
theorem findTask_mem (db : DB) (i : Nat) (t : TaskRow) (h : findTask db i = some t) :
    t ∈ db.tasks :=
  List.mem_of_find?_eq_some h

/-- The row written back for one claimed task. -/
def claimedRow (db : DB) (name : String) (r : RecordRow) : RecordRow :=
  { r with
      status := RecordStatusEnum.running
      manager_name := some name
      modified_on := db.now }

theorem applyClaim_cons (db : DB) (name : String) (t : TaskRow) (ts : List TaskRow) :
    applyClaim db name (t :: ts) =
      applyClaim
        (match findRecord db t.record_id with
         | some r => setRecord db (claimedRow db name r)
         | none => db) name ts := by
  unfold applyClaim claimedRow
  rw [List.foldl_cons]

/-- Writing back a claimed batch touches only the records of the batch:
any record id either keeps its row, or ends up claimed (status running). -/
theorem applyClaim_findRecord (name : String) (items : List TaskRow) (db : DB) (rid : Nat) :
    findRecord (applyClaim db name items) rid = findRecord db rid ∨
    ∃ r, findRecord (applyClaim db name items) rid = some r ∧
      r.status = RecordStatusEnum.running := by
  induction items generalizing db with
  | nil => exact Or.inl rfl
  | cons t ts ih =>
    rw [applyClaim_cons]
    rcases hstep : findRecord db t.record_id with _ | r
    · exact ih db
    · rcases ih (setRecord db (claimedRow db name r)) with h | h
      · by_cases hr : rid = (claimedRow db name r).record_id
        · rw [h, hr, findRecord_setRecord_self]
          have hrid : (claimedRow db name r).record_id = t.record_id :=
            findRecord_id db t.record_id r hstep
          rw [hrid, hstep]
          exact Or.inr ⟨claimedRow db name r, rfl, rfl⟩
        · rw [h, findRecord_setRecord_ne db _ rid hr]
          exact Or.inl rfl
      · exact Or.inr h

/-!
C4: absent or inactive manager fails the whole call, for both claim_tasks
and update_finished, with a typed ComputeManagerError.  In this embedding an
error return carries no database state: the session is rolled back, so no
task or record state changes and no per-task processing takes place.
-/

/-- C4: both claim_tasks and update_finished, called with a manager name
that does not exist or whose status is not active, fail the whole call with
a typed ComputeManagerError before processing any task; no task or record
state changes. -/
theorem manager_gate (tcl : Nat) (sr : RecordRow → AutoResetConfig → Bool)
    (cfg : AutoResetConfig) (db : DB) (name : String) (lim : Option Nat)
    (results : List (Nat × ResultPayload)) :
    (findManager db name = none →
      claim_tasks tcl db name lim = Except.error ⟨"Manager does not exist!"⟩ ∧
      update_finished sr cfg db name results =
        Except.error ⟨"Manager " ++ name ++ " does not exist"⟩) ∧
    (∀ m, findManager db name = some m → m.m_status ≠ ManagerStatusEnum.active →
      claim_tasks tcl db name lim = Except.error ⟨"Manager is not active!"⟩ ∧
      update_finished sr cfg db name results =
        Except.error ⟨"Manager " ++ name ++ " is not active"⟩) := by
  constructor
  · intro hnone
    constructor
    · unfold claim_tasks
      rw [hnone]
    · unfold update_finished
      rw [hnone]
  · intro m hsome hstat
    have hb : (m.m_status != ManagerStatusEnum.active) = true := by
      cases h : m.m_status
      · exact absurd h hstat
      · rfl
    constructor
    · unfold claim_tasks
      rw [hsome]
      simp [hb]
    · unfold update_finished
      rw [hsome]
      simp [hb]

/-!
Lemmas about the claim selection.
-/

instance : IsTrans TaskRow claimOrder :=
  ⟨by
    intro a b c hab hbc
    unfold claimOrder at *
    omega⟩

instance : IsTotal TaskRow claimOrder :=
  ⟨by
    intro a b
    unfold claimOrder
    omega⟩

theorem tagSelect_length (db : DB) (programs : List String) (tag : String) (lim : Nat) :
    (tagSelect db programs tag lim).length ≤ lim := by
  unfold tagSelect
  rw [List.length_take]
  exact min_le_left _ _

theorem tagSelect_mem (db : DB) (programs : List String) (tag : String) (lim : Nat)
    (t : TaskRow) (h : t ∈ tagSelect db programs tag lim) :
    t ∈ db.tasks ∧ taskEligible db programs tag t = true := by
  unfold tagSelect at h
  have h2 := (List.perm_insertionSort claimOrder _).mem_iff.mp (List.mem_of_mem_take h)
  exact ⟨(List.mem_filter.mp h2).1, (List.mem_filter.mp h2).2⟩

theorem tagSelect_sorted (db : DB) (programs : List String) (tag : String) (lim : Nat) :
    List.Pairwise claimOrder (tagSelect db programs tag lim) :=
  List.Pairwise.sublist (List.take_sublist _ _)
    (List.sorted_insertionSort claimOrder _)

theorem taskEligible_spec (db : DB) (programs : List String) (tag : String) (t : TaskRow)
    (h : taskEligible db programs tag t = true) :
    (∃ r, findRecord db t.record_id = some r ∧ r.status = RecordStatusEnum.waiting) ∧
    (∀ p ∈ t.required_programs, p ∈ programs) ∧ (tag = "*" ∨ t.tag = tag) := by
  unfold taskEligible at h
  rcases hf : findRecord db t.record_id with _ | r
  · rw [hf] at h
    simp at h
  · rw [hf] at h
    simp only [Bool.and_eq_true, beq_iff_eq, Bool.or_eq_true, List.all_eq_true] at h
    obtain ⟨⟨h1, h2⟩, h3⟩ := h
    exact ⟨⟨r, rfl, h1⟩, fun p hp => List.elem_iff.mp (h2 p hp), h3⟩

theorem applyClaim_tasks (db : DB) (name : String) (items : List TaskRow) :
    (applyClaim db name items).tasks = db.tasks := by
  induction items generalizing db with
  | nil => rfl
  | cons t ts ih =>
    rw [applyClaim_cons]
    rcases hstep : findRecord db t.record_id with _ | r
    · exact ih db
    · rw [ih (setRecord db (claimedRow db name r))]
      rfl

theorem claimLoop_nil (name : String) (programs : List String) (limit : Nat) (db : DB)
    (found : List TaskRow) : claimLoop name programs limit db [] found = (db, found) := rfl

theorem claimLoop_cons (name : String) (programs : List String) (limit : Nat) (db : DB)
    (tag : String) (rest : List String) (found : List TaskRow) :
    claimLoop name programs limit db (tag :: rest) found =
      if limit - found.length = 0 then (db, found)
      else
        claimLoop name programs limit
          (applyClaim db name (tagSelect db programs tag (limit - found.length))) rest
          (found ++ tagSelect db programs tag (limit - found.length)) := rfl

/-- The per-tag loop never exceeds the limit. -/
theorem claimLoop_length (name : String) (programs : List String) (limit : Nat)
    (tags : List String) :
    ∀ (db : DB) (found : List TaskRow), found.length ≤ limit →
      (claimLoop name programs limit db tags found).2.length ≤ limit := by
  induction tags with
  | nil =>
    intro db found h
    rw [claimLoop_nil]
    exact h
  | cons tag rest ih =>
    intro db found h
    rw [claimLoop_cons]
    by_cases h0 : limit - found.length = 0
    · rw [if_pos h0]
      exact h
    · rw [if_neg h0]
      apply ih
      have := tagSelect_length db programs tag (limit - found.length)
      rw [List.length_append]
      omega

/-- Every task handed out by the per-tag loop but not already in the
accumulator was a task row whose record was waiting in the database the loop
started from, with its required programs covered and its tag served by one
of the loop's tags. -/
theorem claimLoop_found_spec (name : String) (programs : List String) (limit : Nat)
    (tags : List String) :
    ∀ (db : DB) (found : List TaskRow) (t : TaskRow),
      t ∈ (claimLoop name programs limit db tags found).2 →
      t ∈ found ∨
      (t ∈ db.tasks ∧
       (∃ r, findRecord db t.record_id = some r ∧ r.status = RecordStatusEnum.waiting) ∧
       (∀ p ∈ t.required_programs, p ∈ programs) ∧
       (∃ tag ∈ tags, tag = "*" ∨ t.tag = tag)) := by
  induction tags with
  | nil =>
    intro db found t ht
    rw [claimLoop_nil] at ht
    exact Or.inl ht
  | cons tag rest ih =>
    intro db found t ht
    rw [claimLoop_cons] at ht
    by_cases h0 : limit - found.length = 0
    · rw [if_pos h0] at ht
      exact Or.inl ht
    · rw [if_neg h0] at ht
      rcases ih _ _ t ht with hin | ⟨hmem, ⟨r, hr, hw⟩, hp, tag', htag', hmatch⟩
      · rcases List.mem_append.mp hin with hfound | hnew
        · exact Or.inl hfound
        · obtain ⟨hmem, helig⟩ := tagSelect_mem db programs tag _ t hnew
          obtain ⟨hrec, hp, hmatch⟩ := taskEligible_spec db programs tag t helig
          exact Or.inr ⟨hmem, hrec, hp, tag, List.mem_cons_self _ _, hmatch⟩
      · rw [applyClaim_tasks] at hmem
        rcases applyClaim_findRecord name _ db t.record_id with heq | ⟨rr, hrr, hrun⟩
        · rw [heq] at hr
          exact Or.inr ⟨hmem, ⟨r, hr, hw⟩, hp, tag', List.mem_cons_of_mem _ htag', hmatch⟩
        · rw [hrr] at hr
          cases hr
          rw [hw] at hrun
          cases hrun

/-- The tasks handed out by the per-tag loop decompose into per-tag chunks:
one chunk per processed tag, in the manager's tag order, each chunk sorted
by priority descending then creation order, each of its tasks matching that
tag. -/
theorem claimLoop_chunks (name : String) (programs : List String) (limit : Nat)
    (tags : List String) :
    ∀ (db : DB) (found : List TaskRow),
      ∃ chunks : List (List TaskRow),
        (claimLoop name programs limit db tags found).2 = found ++ chunks.flatten ∧
        List.Forall₂ (fun (chunk : List TaskRow) (tag : String) =>
            List.Pairwise claimOrder chunk ∧
            ∀ t ∈ chunk, tag = "*" ∨ t.tag = tag)
          chunks (tags.take chunks.length) := by
  induction tags with
  | nil =>
    intro db found
    exact ⟨[], by simp [claimLoop_nil], List.Forall₂.nil⟩
  | cons tag rest ih =>
    intro db found
    by_cases h0 : limit - found.length = 0
    · exact ⟨[], by simp [claimLoop_cons, h0], List.Forall₂.nil⟩
    · obtain ⟨chunks, hflat, hall⟩ :=
        ih (applyClaim db name (tagSelect db programs tag (limit - found.length)))
          (found ++ tagSelect db programs tag (limit - found.length))
      refine ⟨tagSelect db programs tag (limit - found.length) :: chunks, ?_, ?_⟩
      · rw [claimLoop_cons, if_neg h0, hflat, List.flatten_cons, List.append_assoc]
      · rw [List.length_cons, List.take_succ_cons]
        refine List.forall₂_cons.mpr ⟨⟨tagSelect_sorted _ _ _ _, ?_⟩, hall⟩
        intro t ht
        exact (taskEligible_spec db programs tag t
          (tagSelect_mem db programs tag _ t ht).2).2.2

/-!
C2: the claim selection.
-/

/-- C2: for a successful claim_tasks call, the manager's tags are processed
in their configured order, and the returned tasks decompose into one chunk
per tag: every returned task was a waiting task of the database whose
required programs are all advertised by the manager, each chunk contains
only tasks matching its tag (or the tag is the wildcard), and each chunk is
ordered by priority descending then creation order ascending, up to the
remaining limit. -/
theorem claim_tasks_selection (tcl : Nat) (db : DB) (name : String) (lim : Option Nat)
    (m : ManagerRow) (db' : DB) (found : List TaskRow)
    (hm : findManager db name = some m)
    (hok : claim_tasks tcl db name lim = Except.ok (db', found)) :
    (∀ t ∈ found,
      t ∈ db.tasks ∧
      (∃ r, findRecord db t.record_id = some r ∧ r.status = RecordStatusEnum.waiting) ∧
      (∀ p ∈ t.required_programs, p ∈ m.programs) ∧
      (∃ tag ∈ m.tags, tag = "*" ∨ t.tag = tag)) ∧
    (∃ chunks : List (List TaskRow),
      found = chunks.flatten ∧
      List.Forall₂ (fun (chunk : List TaskRow) (tag : String) =>
          List.Pairwise claimOrder chunk ∧
          ∀ t ∈ chunk, tag = "*" ∨ t.tag = tag)
        chunks (m.tags.take chunks.length)) := by
  unfold claim_tasks at hok
  rw [hm] at hok
  simp only at hok
  by_cases hact : (m.m_status != ManagerStatusEnum.active) = true
  · rw [if_pos hact] at hok
    cases hok
  · rw [if_neg hact] at hok
    have hfound : found =
        (claimLoop name m.programs (calculate_limit tcl lim) db m.tags []).2 := by
      cases hok
      rfl
    constructor
    · intro t ht
      rw [hfound] at ht
      rcases claimLoop_found_spec name m.programs (calculate_limit tcl lim) m.tags db [] t ht with
        hin | ⟨hmem, hrec, hp, htag⟩
      · cases hin
      · exact ⟨hmem, hrec, hp, htag⟩
    · obtain ⟨chunks, hflat, hall⟩ :=
        claimLoop_chunks name m.programs (calculate_limit tcl lim) m.tags db []
      refine ⟨chunks, ?_, hall⟩
      rw [hfound, hflat]
      rfl

/-!
C10: the configured per-manager claim limit.
-/

/-- C10: a successful claim_tasks call never returns more tasks than the
server-configured per-manager claim limit, whatever limit the caller
requested (or omitted): the effective limit is the requested limit clamped
to the configured maximum, and the returned batch respects both. -/
theorem claim_tasks_limit (tcl : Nat) (db : DB) (name : String) (lim : Option Nat)
    (db' : DB) (found : List TaskRow)
    (hok : claim_tasks tcl db name lim = Except.ok (db', found)) :
    found.length ≤ calculate_limit tcl lim ∧ found.length ≤ tcl := by
  unfold claim_tasks at hok
  rcases hm : findManager db name with _ | m
  · rw [hm] at hok
    exact Except.noConfusion hok
  · rw [hm] at hok
    simp only at hok
    by_cases hact : (m.m_status != ManagerStatusEnum.active) = true
    · rw [if_pos hact] at hok
      cases hok
    · rw [if_neg hact] at hok
      have hfound : found =
          (claimLoop name m.programs (calculate_limit tcl lim) db m.tags []).2 := by
        cases hok
        rfl
      have hlen := claimLoop_length name m.programs (calculate_limit tcl lim) m.tags db []
        (by simp)
      rw [hfound]
      refine ⟨hlen, le_trans hlen ?_⟩
      unfold calculate_limit
      cases lim with
      | none => exact le_refl _
      | some l => exact min_le_right _ _

/-!
Concrete example data for evaluating the embedded socket calls.
-/

def exName : String := "mgr01"

def exCfg : AutoResetConfig := ⟨false⟩

def exSR : RecordRow → AutoResetConfig → Bool := fun _ _ => false

def exMgr : ManagerRow :=
  { name := exName
    m_status := ManagerStatusEnum.active
    programs := ["psi4"]
    tags := ["*"]
    claimed := 0
    successes := 0
    failures := 0
    rejected := 0 }

def exMgrInactive : ManagerRow := { exMgr with m_status := ManagerStatusEnum.inactive }

def exRec (i : Nat) (s : RecordStatusEnum) (mn : Option String) : RecordRow :=
  { record_id := i, status := s, manager_name := mn, modified_on := 0, compute_history := [] }

def exTask (i : Nat) (pri : Nat) (created : Nat) : TaskRow :=
  { task_id := i, record_id := i, tag := "tag0", priority := pri,
    required_programs := ["psi4"], available := true, created_on := created }

def exDB : DB :=
  { managers := [exMgr]
    tasks := [exTask 1 1 5, exTask 2 2 6, exTask 3 1 4]
    records :=
      [exRec 1 RecordStatusEnum.waiting none, exRec 2 RecordStatusEnum.waiting none,
       exRec 3 RecordStatusEnum.waiting none]
    now := 100 }

def exDBInactive : DB := { exDB with managers := [exMgrInactive] }

def exClaimOut : DB × List TaskRow :=
  (claim_tasks 2 exDB exName (some 5)).toOption.getD (exDB, [])

theorem manager_gate_witness :
    findManager exDBInactive exName = some exMgrInactive ∧
    exMgrInactive.m_status ≠ ManagerStatusEnum.active ∧
    claim_tasks 2 exDBInactive exName none = Except.error ⟨"Manager is not active!"⟩ ∧
    update_finished exSR exCfg exDBInactive exName [] =
      Except.error ⟨"Manager " ++ exName ++ " is not active"⟩ :=
  ⟨rfl, by decide,
   ((manager_gate 2 exSR exCfg exDBInactive exName none []).2 exMgrInactive rfl (by decide)).1,
   ((manager_gate 2 exSR exCfg exDBInactive exName none []).2 exMgrInactive rfl (by decide)).2⟩

theorem claim_tasks_selection_witness :
    findManager exDB exName = some exMgr ∧
    claim_tasks 2 exDB exName (some 5) = Except.ok exClaimOut ∧
    (∀ t ∈ exClaimOut.2,
      t ∈ exDB.tasks ∧
      (∃ r, findRecord exDB t.record_id = some r ∧ r.status = RecordStatusEnum.waiting) ∧
      (∀ p ∈ t.required_programs, p ∈ exMgr.programs) ∧
      (∃ tag ∈ exMgr.tags, tag = "*" ∨ t.tag = tag)) :=
  ⟨rfl, rfl,
   (claim_tasks_selection 2 exDB exName (some 5) exMgr exClaimOut.1 exClaimOut.2 rfl rfl).1⟩

theorem claim_tasks_limit_witness :
    claim_tasks 2 exDB exName (some 5) = Except.ok exClaimOut ∧
    exClaimOut.2.length ≤ calculate_limit 2 (some 5) ∧ exClaimOut.2.length ≤ 2 :=
  ⟨rfl,
   (claim_tasks_limit 2 exDB exName (some 5) exClaimOut.1 exClaimOut.2 rfl).1,
   (claim_tasks_limit 2 exDB exName (some 5) exClaimOut.1 exClaimOut.2 rfl).2⟩

/-!
C5: what a claim writes.  The source claim_tasks sets the claimed records to
running, assigns the manager and bumps modified_on, but it never touches the
task rows: in particular the available flag introduced by migration
12e2ba353ee6 (which establishes available = (record status == waiting) and
indexes the claim ordering on it) is left true on claimed tasks even though
their records are now running.
-/

/-- C5, evaluated at the failing input: claiming against exDB (three waiting
tasks, limit 2) claims tasks 2 and 3, sets record 2 to running for mgr01
with modified_on bumped to now, yet leaves the claimed task's available flag
true, contradicting the available = (record status == waiting)
correspondence established by migration 12e2ba353ee6. -/
theorem claim_tasks_leaves_available_true :
    claim_tasks 2 exDB exName (some 5) = Except.ok exClaimOut ∧
    exClaimOut.2.map (fun t => t.task_id) = [2, 3] ∧
    (findRecord exClaimOut.1 2).map (fun r => r.status) = some RecordStatusEnum.running ∧
    (findRecord exClaimOut.1 2).map (fun r => r.manager_name) = some (some exName) ∧
    (findRecord exClaimOut.1 2).map (fun r => r.modified_on) = some 100 ∧
    (findTask exClaimOut.1 2).map (fun t => t.available) = some true := by
  exact ⟨rfl, by decide, by decide, by decide, by decide, by decide⟩

/-!
Lemmas about the per-result loop of update_finished.
-/

theorem updateFinishedStep_db_tasks (sr : RecordRow → AutoResetConfig → Bool)
    (cfg : AutoResetConfig) (name : String) (st : LoopState) (p : Nat × ResultPayload) :
    (updateFinishedStep sr cfg name st p).db.tasks = st.db.tasks := by
  unfold updateFinishedStep internalErrorStep
  dsimp only
  repeat' split
  all_goals simp

theorem updateFinishedStep_db_managers (sr : RecordRow → AutoResetConfig → Bool)
    (cfg : AutoResetConfig) (name : String) (st : LoopState) (p : Nat × ResultPayload) :
    (updateFinishedStep sr cfg name st p).db.managers = st.db.managers := by
  unfold updateFinishedStep internalErrorStep
  dsimp only
  repeat' split
  all_goals simp

theorem updateFinishedStep_rejected_mono (sr : RecordRow → AutoResetConfig → Bool)
    (cfg : AutoResetConfig) (name : String) (st : LoopState) (p : Nat × ResultPayload) :
    ∃ s, (updateFinishedStep sr cfg name st p).tasks_rejected = st.tasks_rejected ++ s := by
  unfold updateFinishedStep internalErrorStep
  dsimp only
  repeat' split
  all_goals first
    | exact ⟨[], (List.append_nil _).symm⟩
    | exact ⟨_, rfl⟩

theorem updateFinishedStep_success_mono (sr : RecordRow → AutoResetConfig → Bool)
    (cfg : AutoResetConfig) (name : String) (st : LoopState) (p : Nat × ResultPayload) :
    ∃ s, (updateFinishedStep sr cfg name st p).tasks_success = st.tasks_success ++ s := by
  unfold updateFinishedStep internalErrorStep
  dsimp only
  repeat' split
  all_goals first
    | exact ⟨[], (List.append_nil _).symm⟩
    | exact ⟨_, rfl⟩

theorem updateFinishedStep_failures_mono (sr : RecordRow → AutoResetConfig → Bool)
    (cfg : AutoResetConfig) (name : String) (st : LoopState) (p : Nat × ResultPayload) :
    ∃ s, (updateFinishedStep sr cfg name st p).tasks_failures = st.tasks_failures ++ s := by
  unfold updateFinishedStep internalErrorStep
  dsimp only
  repeat' split
  all_goals first
    | exact ⟨[], (List.append_nil _).symm⟩
    | exact ⟨_, rfl⟩

/-- The reset queue grows only by the record id of the processed pair's own
task. -/
theorem updateFinishedStep_reset_mono (sr : RecordRow → AutoResetConfig → Bool)
    (cfg : AutoResetConfig) (name : String) (st : LoopState) (p : Nat × ResultPayload)
    (rid : Nat) (h : rid ∈ (updateFinishedStep sr cfg name st p).to_be_reset) :
    rid ∈ st.to_be_reset ∨
    ∃ task, findTask st.db p.1 = some task ∧ task.record_id = rid := by
  unfold updateFinishedStep internalErrorStep at h
  dsimp only at h
  rcases h1 : findTask st.db p.1 with _ | task
  · simp only [h1] at h
    exact Or.inl h
  · simp only [h1] at h
    rcases h2 : findRecord st.db task.record_id with _ | rec
    · simp only [h2] at h
      exact Or.inl h
    · simp only [h2] at h
      have hrid := findRecord_id st.db task.record_id rec h2
      repeat' split at h
      all_goals
        first
        | exact Or.inl h
        | (rcases List.mem_append.mp h with hl | hr
           · exact Or.inl hl
           · simp only [List.mem_singleton] at hr
             exact Or.inr ⟨task, by simp [h1], by omega⟩)

/-- A step never touches the record of any task other than its own. -/
theorem updateFinishedStep_other_record (sr : RecordRow → AutoResetConfig → Bool)
    (cfg : AutoResetConfig) (name : String) (st : LoopState) (p : Nat × ResultPayload)
    (rid : Nat) (h : ∀ task, findTask st.db p.1 = some task → task.record_id ≠ rid) :
    findRecord (updateFinishedStep sr cfg name st p).db rid = findRecord st.db rid := by
  unfold updateFinishedStep internalErrorStep
  dsimp only
  rcases h1 : findTask st.db p.1 with _ | task
  · simp only [h1]
  · simp only [h1]
    rcases h2 : findRecord st.db task.record_id with _ | rec
    · simp only [h2]
    · have hne : rid ≠ rec.record_id := by
        rw [findRecord_id st.db task.record_id rec h2]
        exact Ne.symm (h task h1)
      simp only [h2]
      repeat' split
      all_goals
        first
        | rfl
        | exact findRecord_setRecord_ne _ _ _ hne

theorem step_task_missing (sr : RecordRow → AutoResetConfig → Bool) (cfg : AutoResetConfig)
    (name : String) (st : LoopState) (tid : Nat) (r : ResultPayload)
    (h : findTask st.db tid = none) :
    updateFinishedStep sr cfg name st (tid, r) =
      { st with tasks_rejected :=
          st.tasks_rejected ++ [(tid, "Task does not exist in the task queue")] } := by
  unfold updateFinishedStep
  dsimp only
  simp only [h]

theorem step_record_missing (sr : RecordRow → AutoResetConfig → Bool) (cfg : AutoResetConfig)
    (name : String) (st : LoopState) (tid : Nat) (r : ResultPayload) (task : TaskRow)
    (h1 : findTask st.db tid = some task) (h2 : findRecord st.db task.record_id = none) :
    updateFinishedStep sr cfg name st (tid, r) =
      { st with tasks_rejected :=
          st.tasks_rejected ++ [(tid, "Task does not exist in the task queue")] } := by
  unfold updateFinishedStep
  dsimp only
  simp only [h1, h2]

theorem step_not_running (sr : RecordRow → AutoResetConfig → Bool) (cfg : AutoResetConfig)
    (name : String) (st : LoopState) (tid : Nat) (r : ResultPayload) (task : TaskRow)
    (rec : RecordRow) (h1 : findTask st.db tid = some task)
    (h2 : findRecord st.db task.record_id = some rec)
    (h3 : rec.status ≠ RecordStatusEnum.running) :
    updateFinishedStep sr cfg name st (tid, r) =
      { st with tasks_rejected :=
          st.tasks_rejected ++ [(tid, "Task is not in a running state")] } := by
  unfold updateFinishedStep
  dsimp only
  simp only [h1, h2]
  rw [if_pos (by simp [h3])]

theorem step_wrong_manager (sr : RecordRow → AutoResetConfig → Bool) (cfg : AutoResetConfig)
    (name : String) (st : LoopState) (tid : Nat) (r : ResultPayload) (task : TaskRow)
    (rec : RecordRow) (h1 : findTask st.db tid = some task)
    (h2 : findRecord st.db task.record_id = some rec)
    (h3 : rec.status = RecordStatusEnum.running) (h4 : rec.manager_name ≠ some name) :
    updateFinishedStep sr cfg name st (tid, r) =
      { st with tasks_rejected :=
          st.tasks_rejected ++ [(tid, "Task is claimed by another manager")] } := by
  unfold updateFinishedStep
  dsimp only
  simp only [h1, h2]
  rw [if_neg (by simp [h3]), if_pos (by simp [h4])]

theorem step_failure (sr : RecordRow → AutoResetConfig → Bool) (cfg : AutoResetConfig)
    (name : String) (st : LoopState) (tid : Nat) (r : ResultPayload) (task : TaskRow)
    (rec : RecordRow) (h1 : findTask st.db tid = some task)
    (h2 : findRecord st.db task.record_id = some rec)
    (h3 : rec.status = RecordStatusEnum.running) (h4 : rec.manager_name = some name)
    (h5 : r.success = false) (h6 : r.is_failed_operation = true) (h7 : r.apply_raises = false) :
    updateFinishedStep sr cfg name st (tid, r) =
      { st with
          db := setRecord st.db (update_failed_task rec r.error_type name)
          tasks_failures := st.tasks_failures ++ [tid]
          to_be_reset :=
            if cfg.enabled && sr (update_failed_task rec r.error_type name) cfg then
              st.to_be_reset ++ [rec.record_id]
            else st.to_be_reset
          all_notifications :=
            st.all_notifications ++ [(rec.record_id, RecordStatusEnum.error)] } := by
  unfold updateFinishedStep
  dsimp only
  simp only [h1, h2]
  rw [if_neg (by simp [h3]), if_neg (by simp [h4]), if_pos (by simp [h5, h6]),
    if_neg (by simp [h7])]

theorem step_malformed (sr : RecordRow → AutoResetConfig → Bool) (cfg : AutoResetConfig)
    (name : String) (st : LoopState) (tid : Nat) (r : ResultPayload) (task : TaskRow)
    (rec : RecordRow) (h1 : findTask st.db tid = some task)
    (h2 : findRecord st.db task.record_id = some rec)
    (h3 : rec.status = RecordStatusEnum.running) (h4 : rec.manager_name = some name)
    (h5 : r.success = false) (h6 : r.is_failed_operation = false) (h7 : r.apply_raises = false) :
    updateFinishedStep sr cfg name st (tid, r) =
      { st with
          db := setRecord st.db (update_failed_task rec (some internal_fractal_error) name)
          tasks_rejected :=
            st.tasks_rejected ++ [(tid, "Returned success=False, but not a FailedOperation")]
          all_notifications :=
            st.all_notifications ++ [(rec.record_id, RecordStatusEnum.error)] } := by
  unfold updateFinishedStep
  dsimp only
  simp only [h1, h2]
  rw [if_neg (by simp [h3]), if_neg (by simp [h4]), if_neg (by simp [h6]),
    if_pos (by simp [h5]), if_neg (by simp [h7])]

theorem step_internal_error (sr : RecordRow → AutoResetConfig → Bool) (cfg : AutoResetConfig)
    (name : String) (st : LoopState) (tid : Nat) (r : ResultPayload) (task : TaskRow)
    (rec : RecordRow) (h1 : findTask st.db tid = some task)
    (h2 : findRecord st.db task.record_id = some rec)
    (h3 : rec.status = RecordStatusEnum.running) (h4 : rec.manager_name = some name)
    (h7 : r.apply_raises = true) :
    updateFinishedStep sr cfg name st (tid, r) = internalErrorStep st tid rec name := by
  unfold updateFinishedStep
  dsimp only
  simp only [h1, h2]
  rw [if_neg (by simp [h3]), if_neg (by simp [h4])]
  by_cases h5 : (r.success == false && r.is_failed_operation) = true
  · rw [if_pos h5, if_pos h7]
  · rw [if_neg h5]
    by_cases h6 : (r.success != true) = true
    · rw [if_pos h6, if_pos h7]
    · rw [if_neg h6, if_pos h7]

theorem step_success (sr : RecordRow → AutoResetConfig → Bool) (cfg : AutoResetConfig)
    (name : String) (st : LoopState) (tid : Nat) (r : ResultPayload) (task : TaskRow)
    (rec : RecordRow) (h1 : findTask st.db tid = some task)
    (h2 : findRecord st.db task.record_id = some rec)
    (h3 : rec.status = RecordStatusEnum.running) (h4 : rec.manager_name = some name)
    (h5 : r.success = true) (h7 : r.apply_raises = false) :
    updateFinishedStep sr cfg name st (tid, r) =
      { st with
          db := setRecord st.db (update_completed_task rec name)
          tasks_success := st.tasks_success ++ [tid]
          all_notifications :=
            st.all_notifications ++ [(rec.record_id, RecordStatusEnum.complete)] } := by
  unfold updateFinishedStep
  dsimp only
  simp only [h1, h2]
  rw [if_neg (by simp [h3]), if_neg (by simp [h4]), if_neg (by simp [h5]),
    if_neg (by simp [h5]), if_neg (by simp [h7])]

theorem findTask_eq_of_tasks (db db2 : DB) (h : db.tasks = db2.tasks) (tid : Nat) :
    findTask db tid = findTask db2 tid := by
  unfold findTask
  rw [h]

@[simp]
theorem findRecord_setManager (db : DB) (m : ManagerRow) (rid : Nat) :
    findRecord (setManager db m) rid = findRecord db rid := rfl

theorem processFold_tasks (sr : RecordRow → AutoResetConfig → Bool) (cfg : AutoResetConfig)
    (name : String) (l : List (Nat × ResultPayload)) :
    ∀ st : LoopState,
      (l.foldl (updateFinishedStep sr cfg name) st).db.tasks = st.db.tasks := by
  induction l with
  | nil => intro st; rfl
  | cons p ps ih =>
    intro st
    rw [List.foldl_cons, ih, updateFinishedStep_db_tasks]

theorem processFold_managers (sr : RecordRow → AutoResetConfig → Bool) (cfg : AutoResetConfig)
    (name : String) (l : List (Nat × ResultPayload)) :
    ∀ st : LoopState,
      (l.foldl (updateFinishedStep sr cfg name) st).db.managers = st.db.managers := by
  induction l with
  | nil => intro st; rfl
  | cons p ps ih =>
    intro st
    rw [List.foldl_cons, ih, updateFinishedStep_db_managers]

/-- Folding the loop over pairs none of which owns record R leaves record R
untouched. -/
theorem processFold_other_record (sr : RecordRow → AutoResetConfig → Bool)
    (cfg : AutoResetConfig) (name : String) (l : List (Nat × ResultPayload)) :
    ∀ (st : LoopState) (R : Nat),
      (∀ p ∈ l, ∀ task, findTask st.db p.1 = some task → task.record_id ≠ R) →
      findRecord (l.foldl (updateFinishedStep sr cfg name) st).db R = findRecord st.db R := by
  induction l with
  | nil => intro st R h; rfl
  | cons p ps ih =>
    intro st R h
    rw [List.foldl_cons]
    have hstep := updateFinishedStep_other_record sr cfg name st p R
      (h p (List.mem_cons_self _ _))
    have htasks := updateFinishedStep_db_tasks sr cfg name st p
    rw [ih _ R ?_, hstep]
    intro q hq task htask
    refine h q (List.mem_cons_of_mem _ hq) task ?_
    rw [findTask_eq_of_tasks _ _ htasks q.1] at htask
    exact htask

theorem processFold_rejected_mono (sr : RecordRow → AutoResetConfig → Bool)
    (cfg : AutoResetConfig) (name : String) (l : List (Nat × ResultPayload)) :
    ∀ st : LoopState, ∃ s,
      (l.foldl (updateFinishedStep sr cfg name) st).tasks_rejected =
        st.tasks_rejected ++ s := by
  induction l with
  | nil => intro st; exact ⟨[], (List.append_nil _).symm⟩
  | cons p ps ih =>
    intro st
    rw [List.foldl_cons]
    obtain ⟨s1, hs1⟩ := updateFinishedStep_rejected_mono sr cfg name st p
    obtain ⟨s2, hs2⟩ := ih (updateFinishedStep sr cfg name st p)
    exact ⟨s1 ++ s2, by rw [hs2, hs1, List.append_assoc]⟩

theorem processFold_reset_mem (sr : RecordRow → AutoResetConfig → Bool)
    (cfg : AutoResetConfig) (name : String) (l : List (Nat × ResultPayload)) :
    ∀ (st : LoopState) (rid : Nat),
      rid ∈ (l.foldl (updateFinishedStep sr cfg name) st).to_be_reset →
      rid ∈ st.to_be_reset ∨
      ∃ p ∈ l, ∃ task, findTask st.db p.1 = some task ∧ task.record_id = rid := by
  induction l with
  | nil => intro st rid h; exact Or.inl h
  | cons p ps ih =>
    intro st rid h
    rw [List.foldl_cons] at h
    rcases ih _ rid h with hin | ⟨q, hq, task, htask, hrid⟩
    · rcases updateFinishedStep_reset_mono sr cfg name st p rid hin with h1 | ⟨task, ht, hr⟩
      · exact Or.inl h1
      · exact Or.inr ⟨p, List.mem_cons_self _ _, task, ht, hr⟩
    · rw [findTask_eq_of_tasks _ _ (updateFinishedStep_db_tasks sr cfg name st p) q.1] at htask
      exact Or.inr ⟨q, List.mem_cons_of_mem _ hq, task, htask, hrid⟩

theorem processResults_decomp (sr : RecordRow → AutoResetConfig → Bool) (cfg : AutoResetConfig)
    (name : String) (db : DB) (l1 l2 : List (Nat × ResultPayload)) (tid : Nat)
    (r : ResultPayload) :
    processResults sr cfg name db (l1 ++ (tid, r) :: l2) =
      l2.foldl (updateFinishedStep sr cfg name)
        (updateFinishedStep sr cfg name (processResults sr cfg name db l1) (tid, r)) := by
  unfold processResults
  rw [List.foldl_append, List.foldl_cons]

theorem processResults_tasks (sr : RecordRow → AutoResetConfig → Bool) (cfg : AutoResetConfig)
    (name : String) (db : DB) (results : List (Nat × ResultPayload)) :
    (processResults sr cfg name db results).db.tasks = db.tasks :=
  processFold_tasks sr cfg name results _

/-!
Lookup through the batched reset.
-/

theorem resetRow_id (ids : List Nat) (r : RecordRow) :
    (resetRow ids r).record_id = r.record_id := by
  unfold resetRow
  split <;> rfl

theorem resetRecords_findRecord (db : DB) (ids : List Nat) (rid : Nat) :
    findRecord (resetRecords db ids) rid = (findRecord db rid).map (resetRow ids) := by
  show (db.records.map (resetRow ids)).find? (fun x => x.record_id == rid) =
    (db.records.find? (fun x => x.record_id == rid)).map (resetRow ids)
  induction db.records with
  | nil => rfl
  | cons x xs ih =>
    rw [List.map_cons]
    by_cases hx : x.record_id = rid
    · rw [List.find?_cons_of_pos _ (by simp [resetRow_id, hx]),
        List.find?_cons_of_pos _ (by simp [hx])]
      rfl
    · rw [List.find?_cons_of_neg _ (by simp [resetRow_id, hx]),
        List.find?_cons_of_neg _ (by simp [hx])]
      exact ih

theorem resetRecords_findRecord_not_mem (db : DB) (ids : List Nat) (rid : Nat)
    (h : rid ∉ ids) : findRecord (resetRecords db ids) rid = findRecord db rid := by
  rw [resetRecords_findRecord]
  rcases hf : findRecord db rid with _ | r
  · rfl
  · have hc : r.record_id ∉ ids := by
      rw [findRecord_id db rid r hf]
      exact h
    simp [resetRow, hc]

/-!
Well-formedness of a batch call: the task-record link is one to one and the
submitted mapping has distinct task ids (it is a Python dict).
-/

/-- Distinct task rows own distinct records (the 1:1 task-record link). -/
def taskRecordsInjective (db : DB) : Prop :=
  (db.tasks.map (fun t => t.record_id)).Nodup

theorem task_record_ne (db : DB) (hinj : taskRecordsInjective db) (t1 t2 : TaskRow)
    (h1 : t1 ∈ db.tasks) (h2 : t2 ∈ db.tasks) (hne : t1.task_id ≠ t2.task_id) :
    t1.record_id ≠ t2.record_id := by
  intro he
  exact hne (congrArg (fun t => t.task_id) (List.inj_on_of_nodup_map hinj h1 h2 he))

theorem keys_ne_of_nodup (l1 l2 : List (Nat × ResultPayload)) (tid : Nat) (r : ResultPayload)
    (h : ((l1 ++ (tid, r) :: l2).map Prod.fst).Nodup) :
    (∀ q ∈ l1, q.1 ≠ tid) ∧ (∀ q ∈ l2, q.1 ≠ tid) := by
  rw [List.map_append, List.map_cons, List.nodup_append] at h
  obtain ⟨h1, h2, hdisj⟩ := h
  rw [List.nodup_cons] at h2
  constructor
  · intro q hq hqe
    have hmem : tid ∈ l1.map Prod.fst := by
      rw [← hqe]
      exact List.mem_map_of_mem _ hq
    exact hdisj hmem (List.mem_cons_self _ _)
  · intro q hq hqe
    have hmem : tid ∈ l2.map Prod.fst := by
      rw [← hqe]
      exact List.mem_map_of_mem _ hq
    exact h2.1 hmem

/-- The manager row with the post-loop counter updates. -/
def managerWithStats (m : ManagerRow) (st : LoopState) : ManagerRow :=
  { m with
      successes := m.successes + st.tasks_success.length
      failures := m.failures + st.tasks_failures.length
      rejected := m.rejected + st.tasks_rejected.length }

/-- Inversion of a successful update_finished call. -/
theorem update_finished_ok_inv (sr : RecordRow → AutoResetConfig → Bool)
    (cfg : AutoResetConfig) (db : DB) (name : String)
    (results : List (Nat × ResultPayload)) (db' : DB) (meta : TaskReturnMetadata)
    (hok : update_finished sr cfg db name results = Except.ok (db', meta)) :
    ∃ m, findManager db name = some m ∧ m.m_status = ManagerStatusEnum.active ∧
      meta = ⟨(processResults sr cfg name db results).tasks_rejected,
              (processResults sr cfg name db results).tasks_success ++
                (processResults sr cfg name db results).tasks_failures⟩ ∧
      db' =
        (if cfg.enabled && !(processResults sr cfg name db results).to_be_reset.isEmpty then
          resetRecords
            (setManager (processResults sr cfg name db results).db
              (managerWithStats m (processResults sr cfg name db results)))
            (processResults sr cfg name db results).to_be_reset
        else
          setManager (processResults sr cfg name db results).db
            (managerWithStats m (processResults sr cfg name db results))) := by
  unfold update_finished at hok
  rcases hm : findManager db name with _ | m
  · rw [hm] at hok
    exact Except.noConfusion hok
  · rw [hm] at hok
    simp only at hok
    by_cases hact : (m.m_status != ManagerStatusEnum.active) = true
    · rw [if_pos hact] at hok
      cases hok
    · rw [if_neg hact] at hok
      rw [Except.ok.injEq, Prod.mk.injEq] at hok
      refine ⟨m, rfl, ?_, hok.2.symm, hok.1.symm⟩
      simpa using hact

/-- If the step at a pair only appends a rejection, that rejection reaches
the returned metadata. -/
theorem rejected_pair_mem (sr : RecordRow → AutoResetConfig → Bool) (cfg : AutoResetConfig)
    (db : DB) (name : String) (l1 l2 : List (Nat × ResultPayload)) (tid : Nat)
    (r : ResultPayload) (db' : DB) (meta : TaskReturnMetadata) (reason : String)
    (hok : update_finished sr cfg db name (l1 ++ (tid, r) :: l2) = Except.ok (db', meta))
    (hstep : updateFinishedStep sr cfg name (processResults sr cfg name db l1) (tid, r) =
      { processResults sr cfg name db l1 with
          tasks_rejected :=
            (processResults sr cfg name db l1).tasks_rejected ++ [(tid, reason)] }) :
    (tid, reason) ∈ meta.rejected_info := by
  obtain ⟨m, hm, hact, hmeta, hdb'⟩ := update_finished_ok_inv sr cfg db name _ db' meta hok
  rw [processResults_decomp sr cfg name db l1 l2 tid r] at hmeta
  obtain ⟨s2, hs2⟩ := processFold_rejected_mono sr cfg name l2
    (updateFinishedStep sr cfg name (processResults sr cfg name db l1) (tid, r))
  rw [hmeta]
  show (tid, reason) ∈ (l2.foldl (updateFinishedStep sr cfg name) _).tasks_rejected
  rw [hs2, hstep]
  refine List.mem_append.mpr (Or.inl ?_)
  exact List.mem_append.mpr (Or.inr (List.mem_singleton.mpr rfl))

/-- If the step at a pair leaves the database and the reset queue unchanged,
the record owned by that pair's task is unchanged by the whole call. -/
theorem rejected_pair_record_frame (sr : RecordRow → AutoResetConfig → Bool)
    (cfg : AutoResetConfig) (db : DB) (name : String)
    (l1 l2 : List (Nat × ResultPayload)) (tid : Nat) (r : ResultPayload)
    (db' : DB) (meta : TaskReturnMetadata)
    (hinj : taskRecordsInjective db)
    (hkeys : ((l1 ++ (tid, r) :: l2).map Prod.fst).Nodup)
    (hok : update_finished sr cfg db name (l1 ++ (tid, r) :: l2) = Except.ok (db', meta))
    (hdb2 : (updateFinishedStep sr cfg name (processResults sr cfg name db l1) (tid, r)).db =
      (processResults sr cfg name db l1).db)
    (hreset2 :
      (updateFinishedStep sr cfg name (processResults sr cfg name db l1) (tid, r)).to_be_reset =
      (processResults sr cfg name db l1).to_be_reset)
    (task : TaskRow) (htask : findTask db tid = some task) :
    findRecord db' task.record_id = findRecord db task.record_id := by
  obtain ⟨m, hm, hact, hmeta, hdb'⟩ := update_finished_ok_inv sr cfg db name _ db' meta hok
  obtain ⟨hne1, hne2⟩ := keys_ne_of_nodup l1 l2 tid r hkeys
  have htmem : task ∈ db.tasks := findTask_mem db tid task htask
  have htid : task.task_id = tid := findTask_id db tid task htask
  have hst1tasks : (processResults sr cfg name db l1).db.tasks = db.tasks :=
    processResults_tasks sr cfg name db l1
  -- a pair with a key different from tid owns a record different from ours
  have hotherdb : ∀ (p : Nat × ResultPayload), p.1 ≠ tid → ∀ task',
      findTask db p.1 = some task' → task'.record_id ≠ task.record_id := by
    intro p hp task' htask'
    exact task_record_ne db hinj task' task (findTask_mem db p.1 task' htask') htmem
      (by rw [findTask_id db p.1 task' htask', htid]; exact hp)
  -- the record is untouched while processing l1
  have hrec1 : findRecord (processResults sr cfg name db l1).db task.record_id =
      findRecord db task.record_id := by
    refine processFold_other_record sr cfg name l1 ⟨db, [], [], [], [], []⟩ task.record_id ?_
    intro p hp task' htask'
    exact hotherdb p (hne1 p hp) task' htask'
  -- the record is untouched while processing l2
  have hrec2 : findRecord
      (l2.foldl (updateFinishedStep sr cfg name)
        (updateFinishedStep sr cfg name (processResults sr cfg name db l1) (tid, r))).db
      task.record_id =
      findRecord db task.record_id := by
    rw [processFold_other_record sr cfg name l2 _ task.record_id ?_, hdb2, hrec1]
    intro p hp task' htask'
    rw [findTask_eq_of_tasks _ db ?_ p.1] at htask'
    · exact hotherdb p (hne2 p hp) task' htask'
    · rw [hdb2]
      exact hst1tasks
  -- the record is not in the reset queue
  have hnotreset : task.record_id ∉
      (l2.foldl (updateFinishedStep sr cfg name)
        (updateFinishedStep sr cfg name (processResults sr cfg name db l1) (tid, r))).to_be_reset := by
    intro hmemr
    rcases processFold_reset_mem sr cfg name l2 _ task.record_id hmemr with hin2 | ⟨p, hp, task', ht', hr'⟩
    · rw [hreset2] at hin2
      rcases processFold_reset_mem sr cfg name l1 ⟨db, [], [], [], [], []⟩ task.record_id hin2 with
        hin0 | ⟨p, hp, task', ht', hr'⟩
      · exact absurd hin0 (List.not_mem_nil _)
      · exact hotherdb p (hne1 p hp) task' ht' hr'
    · rw [findTask_eq_of_tasks _ db ?_ p.1] at ht'
      · exact hotherdb p (hne2 p hp) task' ht' hr'
      · rw [hdb2]
        exact hst1tasks
  -- the final database state
  have hnotreset' : task.record_id ∉
      (processResults sr cfg name db (l1 ++ (tid, r) :: l2)).to_be_reset := by
    rw [processResults_decomp sr cfg name db l1 l2 tid r]
    exact hnotreset
  have hrec2' : findRecord (processResults sr cfg name db (l1 ++ (tid, r) :: l2)).db
      task.record_id = findRecord db task.record_id := by
    rw [processResults_decomp sr cfg name db l1 l2 tid r]
    exact hrec2
  rw [hdb']
  by_cases hcond : (cfg.enabled && !(processResults sr cfg name db
      (l1 ++ (tid, r) :: l2)).to_be_reset.isEmpty) = true
  · rw [if_pos hcond, resetRecords_findRecord_not_mem _ _ _ hnotreset', findRecord_setManager]
    exact hrec2'
  · rw [if_neg hcond, findRecord_setManager]
    exact hrec2'

/-!
C3: consistency rejections of update_finished.
-/

/-- C3: within a successful update_finished batch, a result for an unknown
task id is rejected as nonexistent; a result for a task whose record is not
running is rejected for that reason; a result for a running record claimed
by a different manager is rejected for that reason; and in the latter two
cases the rejection leaves the record row - its status and compute history
included - exactly as it was. -/
theorem update_finished_consistency_rejects (sr : RecordRow → AutoResetConfig → Bool)
    (cfg : AutoResetConfig) (db : DB) (name : String)
    (results : List (Nat × ResultPayload)) (db' : DB) (meta : TaskReturnMetadata)
    (hinj : taskRecordsInjective db)
    (hkeys : (results.map Prod.fst).Nodup)
    (hok : update_finished sr cfg db name results = Except.ok (db', meta))
    (tid : Nat) (r : ResultPayload) (hmem : (tid, r) ∈ results) :
    (findTask db tid = none →
      (tid, "Task does not exist in the task queue") ∈ meta.rejected_info) ∧
    (∀ task rec, findTask db tid = some task →
      findRecord db task.record_id = some rec →
      (rec.status ≠ RecordStatusEnum.running →
        (tid, "Task is not in a running state") ∈ meta.rejected_info ∧
        findRecord db' task.record_id = some rec) ∧
      (rec.status = RecordStatusEnum.running → rec.manager_name ≠ some name →
        (tid, "Task is claimed by another manager") ∈ meta.rejected_info ∧
        findRecord db' task.record_id = some rec)) := by
  obtain ⟨l1, l2, hsplit⟩ := List.append_of_mem hmem
  subst hsplit
  have hst1tasks : (processResults sr cfg name db l1).db.tasks = db.tasks :=
    processResults_tasks sr cfg name db l1
  have hft1 : ∀ q, findTask (processResults sr cfg name db l1).db q = findTask db q :=
    fun q => findTask_eq_of_tasks _ _ hst1tasks q
  constructor
  · intro hnone
    refine rejected_pair_mem sr cfg db name l1 l2 tid r db' meta _ hok ?_
    exact step_task_missing sr cfg name _ tid r (by rw [hft1]; exact hnone)
  · intro task rec htask hrec
    have htask1 : findTask (processResults sr cfg name db l1).db tid = some task := by
      rw [hft1]
      exact htask
    have hotherl1 : ∀ p ∈ l1, ∀ task', findTask db p.1 = some task' →
        task'.record_id ≠ task.record_id := by
      intro p hp task' htask'
      exact task_record_ne db hinj task' task (findTask_mem db p.1 task' htask')
        (findTask_mem db tid task htask)
        (by
          rw [findTask_id db p.1 task' htask', findTask_id db tid task htask]
          exact (keys_ne_of_nodup l1 l2 tid r hkeys).1 p hp)
    have hrec1 : findRecord (processResults sr cfg name db l1).db task.record_id =
        findRecord db task.record_id := by
      refine processFold_other_record sr cfg name l1 ⟨db, [], [], [], [], []⟩ task.record_id ?_
      intro p hp task' htask'
      exact hotherl1 p hp task' htask'
    have hrecst1 : findRecord (processResults sr cfg name db l1).db task.record_id = some rec := by
      rw [hrec1]
      exact hrec
    constructor
    · intro hnr
      have hstep := step_not_running sr cfg name _ tid r task rec htask1 hrecst1 hnr
      refine ⟨rejected_pair_mem sr cfg db name l1 l2 tid r db' meta _ hok hstep, ?_⟩
      rw [rejected_pair_record_frame sr cfg db name l1 l2 tid r db' meta hinj hkeys hok
        (by rw [hstep]) (by rw [hstep]) task htask]
      exact hrec
    · intro hrun hwm
      have hstep := step_wrong_manager sr cfg name _ tid r task rec htask1 hrecst1 hrun hwm
      refine ⟨rejected_pair_mem sr cfg db name l1 l2 tid r db' meta _ hok hstep, ?_⟩
      rw [rejected_pair_record_frame sr cfg db name l1 l2 tid r db' meta hinj hkeys hok
        (by rw [hstep]) (by rw [hstep]) task htask]
      exact hrec

theorem findManager_name (db : DB) (name : String) (m : ManagerRow)
    (h : findManager db name = some m) : m.name = name := by
  have := List.find?_some h
  simpa using this

theorem findManager_eq_of_managers (db db2 : DB) (h : db.managers = db2.managers)
    (name : String) : findManager db name = findManager db2 name := by
  unfold findManager
  rw [h]

@[simp]
theorem findManager_resetRecords (db : DB) (ids : List Nat) (name : String) :
    findManager (resetRecords db ids) name = findManager db name := rfl

theorem findManager_setManager_self (db : DB) (mm : ManagerRow) :
    findManager (setManager db mm) mm.name = (findManager db mm.name).map (fun _ => mm) := by
  show (db.managers.map fun x => if x.name == mm.name then mm else x).find?
      (fun x => x.name == mm.name) =
      (db.managers.find? (fun x => x.name == mm.name)).map (fun _ => mm)
  induction db.managers with
  | nil => rfl
  | cons x xs ih =>
    rw [List.map_cons]
    by_cases hx : x.name = mm.name
    · rw [if_pos (show (x.name == mm.name) = true by simp [hx])]
      rw [List.find?_cons_of_pos _ (by simp), List.find?_cons_of_pos _ (by simp [hx])]
      rfl
    · rw [if_neg (show ¬(x.name == mm.name) = true by simp [hx])]
      rw [List.find?_cons_of_neg _ (by simp [hx]), List.find?_cons_of_neg _ (by simp [hx])]
      exact ih

theorem processResults_managers (sr : RecordRow → AutoResetConfig → Bool)
    (cfg : AutoResetConfig) (name : String) (db : DB)
    (results : List (Nat × ResultPayload)) :
    (processResults sr cfg name db results).db.managers = db.managers :=
  processFold_managers sr cfg name results _

/-!
Which pair appends which id to the loop's accumulator lists.
-/

theorem updateFinishedStep_success_append (sr : RecordRow → AutoResetConfig → Bool)
    (cfg : AutoResetConfig) (name : String) (st : LoopState) (p : Nat × ResultPayload) :
    (updateFinishedStep sr cfg name st p).tasks_success = st.tasks_success ∨
    (updateFinishedStep sr cfg name st p).tasks_success = st.tasks_success ++ [p.1] := by
  unfold updateFinishedStep internalErrorStep
  dsimp only
  repeat' split
  all_goals first
    | exact Or.inl rfl
    | exact Or.inr rfl

theorem updateFinishedStep_failures_append (sr : RecordRow → AutoResetConfig → Bool)
    (cfg : AutoResetConfig) (name : String) (st : LoopState) (p : Nat × ResultPayload) :
    (updateFinishedStep sr cfg name st p).tasks_failures = st.tasks_failures ∨
    (updateFinishedStep sr cfg name st p).tasks_failures = st.tasks_failures ++ [p.1] := by
  unfold updateFinishedStep internalErrorStep
  dsimp only
  repeat' split
  all_goals first
    | exact Or.inl rfl
    | exact Or.inr rfl

theorem updateFinishedStep_rejected_append (sr : RecordRow → AutoResetConfig → Bool)
    (cfg : AutoResetConfig) (name : String) (st : LoopState) (p : Nat × ResultPayload) :
    (updateFinishedStep sr cfg name st p).tasks_rejected = st.tasks_rejected ∨
    ∃ reason, (updateFinishedStep sr cfg name st p).tasks_rejected =
      st.tasks_rejected ++ [(p.1, reason)] := by
  unfold updateFinishedStep internalErrorStep
  dsimp only
  repeat' split
  all_goals first
    | exact Or.inl rfl
    | exact Or.inr ⟨_, rfl⟩

theorem processFold_success_source (sr : RecordRow → AutoResetConfig → Bool)
    (cfg : AutoResetConfig) (name : String) (l : List (Nat × ResultPayload)) :
    ∀ (st : LoopState) (tid : Nat),
      tid ∈ (l.foldl (updateFinishedStep sr cfg name) st).tasks_success →
      tid ∈ st.tasks_success ∨ tid ∈ l.map Prod.fst := by
  induction l with
  | nil => intro st tid h; exact Or.inl h
  | cons p ps ih =>
    intro st tid h
    rw [List.foldl_cons] at h
    rcases ih _ tid h with hin | hkey
    · rcases updateFinishedStep_success_append sr cfg name st p with he | he
      · rw [he] at hin
        exact Or.inl hin
      · rw [he] at hin
        rcases List.mem_append.mp hin with h1 | h1
        · exact Or.inl h1
        · simp only [List.mem_singleton] at h1
          exact Or.inr (by rw [List.map_cons, h1]; exact List.mem_cons_self _ _)
    · exact Or.inr (by rw [List.map_cons]; exact List.mem_cons_of_mem _ hkey)

theorem processFold_failures_source (sr : RecordRow → AutoResetConfig → Bool)
    (cfg : AutoResetConfig) (name : String) (l : List (Nat × ResultPayload)) :
    ∀ (st : LoopState) (tid : Nat),
      tid ∈ (l.foldl (updateFinishedStep sr cfg name) st).tasks_failures →
      tid ∈ st.tasks_failures ∨ tid ∈ l.map Prod.fst := by
  induction l with
  | nil => intro st tid h; exact Or.inl h
  | cons p ps ih =>
    intro st tid h
    rw [List.foldl_cons] at h
    rcases ih _ tid h with hin | hkey
    · rcases updateFinishedStep_failures_append sr cfg name st p with he | he
      · rw [he] at hin
        exact Or.inl hin
      · rw [he] at hin
        rcases List.mem_append.mp hin with h1 | h1
        · exact Or.inl h1
        · simp only [List.mem_singleton] at h1
          exact Or.inr (by rw [List.map_cons, h1]; exact List.mem_cons_self _ _)
    · exact Or.inr (by rw [List.map_cons]; exact List.mem_cons_of_mem _ hkey)

theorem processFold_rejected_source (sr : RecordRow → AutoResetConfig → Bool)
    (cfg : AutoResetConfig) (name : String) (l : List (Nat × ResultPayload)) :
    ∀ (st : LoopState) (e : Nat × String),
      e ∈ (l.foldl (updateFinishedStep sr cfg name) st).tasks_rejected →
      e ∈ st.tasks_rejected ∨ e.1 ∈ l.map Prod.fst := by
  induction l with
  | nil => intro st e h; exact Or.inl h
  | cons p ps ih =>
    intro st e h
    rw [List.foldl_cons] at h
    rcases ih _ e h with hin | hkey
    · rcases updateFinishedStep_rejected_append sr cfg name st p with he | ⟨reason, he⟩
      · rw [he] at hin
        exact Or.inl hin
      · rw [he] at hin
        rcases List.mem_append.mp hin with h1 | h1
        · exact Or.inl h1
        · simp only [List.mem_singleton] at h1
          exact Or.inr (by rw [List.map_cons, h1]; exact List.mem_cons_self _ _)
    · exact Or.inr (by rw [List.map_cons]; exact List.mem_cons_of_mem _ hkey)

/-!
Which branch of the per-result step produced a given effect.
-/

/-- A step appends its pair's id to the success list only from the success
branch. -/
theorem updateFinishedStep_success_src (sr : RecordRow → AutoResetConfig → Bool)
    (cfg : AutoResetConfig) (name : String) (st : LoopState) (tid tid' : Nat)
    (r : ResultPayload)
    (h : tid' ∈ (updateFinishedStep sr cfg name st (tid, r)).tasks_success) :
    tid' ∈ st.tasks_success ∨
    (tid' = tid ∧ ∃ task rec, findTask st.db tid = some task ∧
      findRecord st.db task.record_id = some rec ∧
      rec.status = RecordStatusEnum.running ∧ rec.manager_name = some name ∧
      r.success = true ∧ r.apply_raises = false ∧
      updateFinishedStep sr cfg name st (tid, r) =
        { st with
            db := setRecord st.db (update_completed_task rec name)
            tasks_success := st.tasks_success ++ [tid]
            all_notifications :=
              st.all_notifications ++ [(rec.record_id, RecordStatusEnum.complete)] }) := by
  rcases h1 : findTask st.db tid with _ | task
  · rw [step_task_missing sr cfg name st tid r h1] at h
    exact Or.inl h
  · rcases h2 : findRecord st.db task.record_id with _ | rec
    · rw [step_record_missing sr cfg name st tid r task h1 h2] at h
      exact Or.inl h
    · by_cases hc1 : rec.status = RecordStatusEnum.running
      · by_cases hc2 : rec.manager_name = some name
        swap
        · rw [step_wrong_manager sr cfg name st tid r task rec h1 h2 hc1 hc2] at h
          exact Or.inl h
        · by_cases hc4 : r.apply_raises = true
          · rw [step_internal_error sr cfg name st tid r task rec h1 h2 hc1 hc2 hc4] at h
            exact Or.inl h
          · have hc4' : r.apply_raises = false := by
              cases hra : r.apply_raises
              · rfl
              · exact absurd hra hc4
            cases hs : r.success
            · by_cases hfo : r.is_failed_operation = true
              · rw [step_failure sr cfg name st tid r task rec h1 h2 hc1 hc2 hs hfo hc4'] at h
                exact Or.inl h
              · have hfo' : r.is_failed_operation = false := by
                  cases hf : r.is_failed_operation
                  · rfl
                  · exact absurd hf hfo
                rw [step_malformed sr cfg name st tid r task rec h1 h2 hc1 hc2 hs hfo' hc4'] at h
                exact Or.inl h
            · have hstep := step_success sr cfg name st tid r task rec h1 h2 hc1 hc2 hs hc4'
              rw [hstep] at h
              rcases List.mem_append.mp h with h3 | h3
              · exact Or.inl h3
              · simp only [List.mem_singleton] at h3
                exact Or.inr ⟨h3, task, rec, rfl, h2, hc1, hc2, rfl, hc4', hstep⟩
      · rw [step_not_running sr cfg name st tid r task rec h1 h2 hc1] at h
        exact Or.inl h

/-- A step appends its pair's id to the failure list only from the
recognized-failure branch. -/
theorem updateFinishedStep_failures_src (sr : RecordRow → AutoResetConfig → Bool)
    (cfg : AutoResetConfig) (name : String) (st : LoopState) (tid tid' : Nat)
    (r : ResultPayload)
    (h : tid' ∈ (updateFinishedStep sr cfg name st (tid, r)).tasks_failures) :
    tid' ∈ st.tasks_failures ∨
    (tid' = tid ∧ ∃ task rec, findTask st.db tid = some task ∧
      findRecord st.db task.record_id = some rec ∧
      rec.status = RecordStatusEnum.running ∧ rec.manager_name = some name ∧
      r.success = false ∧ r.is_failed_operation = true ∧ r.apply_raises = false ∧
      updateFinishedStep sr cfg name st (tid, r) =
        { st with
            db := setRecord st.db (update_failed_task rec r.error_type name)
            tasks_failures := st.tasks_failures ++ [tid]
            to_be_reset :=
              if cfg.enabled && sr (update_failed_task rec r.error_type name) cfg then
                st.to_be_reset ++ [rec.record_id]
              else st.to_be_reset
            all_notifications :=
              st.all_notifications ++ [(rec.record_id, RecordStatusEnum.error)] }) := by
  rcases h1 : findTask st.db tid with _ | task
  · rw [step_task_missing sr cfg name st tid r h1] at h
    exact Or.inl h
  · rcases h2 : findRecord st.db task.record_id with _ | rec
    · rw [step_record_missing sr cfg name st tid r task h1 h2] at h
      exact Or.inl h
    · by_cases hc1 : rec.status = RecordStatusEnum.running
      · by_cases hc2 : rec.manager_name = some name
        swap
        · rw [step_wrong_manager sr cfg name st tid r task rec h1 h2 hc1 hc2] at h
          exact Or.inl h
        · by_cases hc4 : r.apply_raises = true
          · rw [step_internal_error sr cfg name st tid r task rec h1 h2 hc1 hc2 hc4] at h
            exact Or.inl h
          · have hc4' : r.apply_raises = false := by
              cases hra : r.apply_raises
              · rfl
              · exact absurd hra hc4
            cases hs : r.success
            · by_cases hfo : r.is_failed_operation = true
              · have hstep := step_failure sr cfg name st tid r task rec h1 h2 hc1 hc2 hs hfo hc4'
                rw [hstep] at h
                rcases List.mem_append.mp h with h3 | h3
                · exact Or.inl h3
                · simp only [List.mem_singleton] at h3
                  exact Or.inr ⟨h3, task, rec, rfl, h2, hc1, hc2, rfl, hfo, hc4', hstep⟩
              · have hfo' : r.is_failed_operation = false := by
                  cases hf : r.is_failed_operation
                  · rfl
                  · exact absurd hf hfo
                rw [step_malformed sr cfg name st tid r task rec h1 h2 hc1 hc2 hs hfo' hc4'] at h
                exact Or.inl h
            · rw [step_success sr cfg name st tid r task rec h1 h2 hc1 hc2 hs hc4'] at h
              exact Or.inl h
      · rw [step_not_running sr cfg name st tid r task rec h1 h2 hc1] at h
        exact Or.inl h

/-- A step enqueues an automatic reset only from the recognized-failure
branch, only with auto reset enabled, and only when should_reset recommends
it on the freshly-failed record. -/
theorem updateFinishedStep_reset_src (sr : RecordRow → AutoResetConfig → Bool)
    (cfg : AutoResetConfig) (name : String) (st : LoopState) (tid : Nat)
    (r : ResultPayload) (rid : Nat)
    (h : rid ∈ (updateFinishedStep sr cfg name st (tid, r)).to_be_reset) :
    rid ∈ st.to_be_reset ∨
    ∃ task rec, findTask st.db tid = some task ∧
      findRecord st.db task.record_id = some rec ∧ task.record_id = rid ∧
      rec.status = RecordStatusEnum.running ∧ rec.manager_name = some name ∧
      r.success = false ∧ r.is_failed_operation = true ∧ r.apply_raises = false ∧
      cfg.enabled = true ∧
      sr (update_failed_task rec r.error_type name) cfg = true := by
  rcases h1 : findTask st.db tid with _ | task
  · rw [step_task_missing sr cfg name st tid r h1] at h
    exact Or.inl h
  · rcases h2 : findRecord st.db task.record_id with _ | rec
    · rw [step_record_missing sr cfg name st tid r task h1 h2] at h
      exact Or.inl h
    · by_cases hc1 : rec.status = RecordStatusEnum.running
      · by_cases hc2 : rec.manager_name = some name
        swap
        · rw [step_wrong_manager sr cfg name st tid r task rec h1 h2 hc1 hc2] at h
          exact Or.inl h
        · by_cases hc4 : r.apply_raises = true
          · rw [step_internal_error sr cfg name st tid r task rec h1 h2 hc1 hc2 hc4] at h
            exact Or.inl h
          · have hc4' : r.apply_raises = false := by
              cases hra : r.apply_raises
              · rfl
              · exact absurd hra hc4
            cases hs : r.success
            · by_cases hfo : r.is_failed_operation = true
              · rw [step_failure sr cfg name st tid r task rec h1 h2 hc1 hc2 hs hfo hc4'] at h
                by_cases hcr : (cfg.enabled && sr (update_failed_task rec r.error_type name) cfg) = true
                · rw [if_pos hcr] at h
                  rcases List.mem_append.mp h with h3 | h3
                  · exact Or.inl h3
                  · simp only [List.mem_singleton] at h3
                    rw [Bool.and_eq_true] at hcr
                    exact Or.inr ⟨task, rec, rfl, h2,
                      by rw [h3, findRecord_id st.db task.record_id rec h2],
                      hc1, hc2, rfl, hfo, hc4', hcr.1, hcr.2⟩
                · rw [if_neg hcr] at h
                  exact Or.inl h
              · have hfo' : r.is_failed_operation = false := by
                  cases hf : r.is_failed_operation
                  · rfl
                  · exact absurd hf hfo
                rw [step_malformed sr cfg name st tid r task rec h1 h2 hc1 hc2 hs hfo' hc4'] at h
                exact Or.inl h
            · rw [step_success sr cfg name st tid r task rec h1 h2 hc1 hc2 hs hc4'] at h
              exact Or.inl h
      · rw [step_not_running sr cfg name st tid r task rec h1 h2 hc1] at h
        exact Or.inl h

theorem setRecord_record_status (db : DB) (row : RecordRow) (rid : Nat)
    (hs : row.status = RecordStatusEnum.error ∨ row.status = RecordStatusEnum.complete) :
    findRecord (setRecord db row) rid = findRecord db rid ∨
    ∃ rr, findRecord (setRecord db row) rid = some rr ∧
      (rr.status = RecordStatusEnum.error ∨ rr.status = RecordStatusEnum.complete) := by
  by_cases hr : rid = row.record_id
  · subst hr
    rw [findRecord_setRecord_self]
    rcases hf : findRecord db row.record_id with _ | x
    · exact Or.inl rfl
    · exact Or.inr ⟨row, rfl, hs⟩
  · rw [findRecord_setRecord_ne db row rid hr]
    exact Or.inl rfl

/-- A step either leaves a record row alone or writes it with status error
or complete; it never writes a waiting row. -/
theorem updateFinishedStep_record_status (sr : RecordRow → AutoResetConfig → Bool)
    (cfg : AutoResetConfig) (name : String) (st : LoopState) (p : Nat × ResultPayload)
    (rid : Nat) :
    findRecord (updateFinishedStep sr cfg name st p).db rid = findRecord st.db rid ∨
    ∃ rr, findRecord (updateFinishedStep sr cfg name st p).db rid = some rr ∧
      (rr.status = RecordStatusEnum.error ∨ rr.status = RecordStatusEnum.complete) := by
  unfold updateFinishedStep internalErrorStep
  dsimp only
  rcases h1 : findTask st.db p.1 with _ | task
  · simp only [h1]
    first
      | exact Or.inl rfl
      | exact Or.inl trivial
  · simp only [h1]
    rcases h2 : findRecord st.db task.record_id with _ | rec
    · simp only [h2]
      first
        | exact Or.inl rfl
        | exact Or.inl trivial
    · simp only [h2]
      repeat' split
      all_goals first
        | exact Or.inl rfl
        | exact Or.inl trivial
        | exact setRecord_record_status st.db _ rid (Or.inl rfl)
        | exact setRecord_record_status st.db _ rid (Or.inr rfl)

theorem processFold_record_status (sr : RecordRow → AutoResetConfig → Bool)
    (cfg : AutoResetConfig) (name : String) (l : List (Nat × ResultPayload)) :
    ∀ (st : LoopState) (rid : Nat),
      findRecord (l.foldl (updateFinishedStep sr cfg name) st).db rid = findRecord st.db rid ∨
      ∃ rr, findRecord (l.foldl (updateFinishedStep sr cfg name) st).db rid = some rr ∧
        (rr.status = RecordStatusEnum.error ∨ rr.status = RecordStatusEnum.complete) := by
  induction l with
  | nil => intro st rid; exact Or.inl rfl
  | cons p ps ih =>
    intro st rid
    rw [List.foldl_cons]
    rcases ih (updateFinishedStep sr cfg name st p) rid with heq | hrr
    · rw [heq]
      exact updateFinishedStep_record_status sr cfg name st p rid
    · exact Or.inr hrr

/-- If the step at a pair does not enqueue a reset, the record owned by that
pair's task keeps, through the rest of the call, the row the step left it
with. -/
theorem pair_record_final (sr : RecordRow → AutoResetConfig → Bool)
    (cfg : AutoResetConfig) (db : DB) (name : String)
    (l1 l2 : List (Nat × ResultPayload)) (tid : Nat) (r : ResultPayload)
    (db' : DB) (meta : TaskReturnMetadata)
    (hinj : taskRecordsInjective db)
    (hkeys : ((l1 ++ (tid, r) :: l2).map Prod.fst).Nodup)
    (hok : update_finished sr cfg db name (l1 ++ (tid, r) :: l2) = Except.ok (db', meta))
    (hreset2 :
      (updateFinishedStep sr cfg name (processResults sr cfg name db l1) (tid, r)).to_be_reset =
      (processResults sr cfg name db l1).to_be_reset)
    (task : TaskRow) (htask : findTask db tid = some task) :
    findRecord db' task.record_id =
      findRecord
        (updateFinishedStep sr cfg name (processResults sr cfg name db l1) (tid, r)).db
        task.record_id := by
  obtain ⟨m, hm, hact, hmeta, hdb'⟩ := update_finished_ok_inv sr cfg db name _ db' meta hok
  obtain ⟨hne1, hne2⟩ := keys_ne_of_nodup l1 l2 tid r hkeys
  have htmem : task ∈ db.tasks := findTask_mem db tid task htask
  have htid : task.task_id = tid := findTask_id db tid task htask
  have hst1tasks : (processResults sr cfg name db l1).db.tasks = db.tasks :=
    processResults_tasks sr cfg name db l1
  have hst2tasks :
      (updateFinishedStep sr cfg name (processResults sr cfg name db l1) (tid, r)).db.tasks =
      db.tasks := by
    rw [updateFinishedStep_db_tasks]
    exact hst1tasks
  have hotherdb : ∀ (p : Nat × ResultPayload), p.1 ≠ tid → ∀ task',
      findTask db p.1 = some task' → task'.record_id ≠ task.record_id := by
    intro p hp task' htask'
    exact task_record_ne db hinj task' task (findTask_mem db p.1 task' htask') htmem
      (by rw [findTask_id db p.1 task' htask', htid]; exact hp)
  have hrec2 : findRecord
      (l2.foldl (updateFinishedStep sr cfg name)
        (updateFinishedStep sr cfg name (processResults sr cfg name db l1) (tid, r))).db
      task.record_id =
      findRecord
        (updateFinishedStep sr cfg name (processResults sr cfg name db l1) (tid, r)).db
        task.record_id := by
    refine processFold_other_record sr cfg name l2 _ task.record_id ?_
    intro p hp task' htask'
    rw [findTask_eq_of_tasks _ db hst2tasks p.1] at htask'
    exact hotherdb p (hne2 p hp) task' htask'
  have hnotreset : task.record_id ∉
      (l2.foldl (updateFinishedStep sr cfg name)
        (updateFinishedStep sr cfg name (processResults sr cfg name db l1) (tid, r))).to_be_reset := by
    intro hmemr
    rcases processFold_reset_mem sr cfg name l2 _ task.record_id hmemr with hin2 | ⟨p, hp, task', ht', hr'⟩
    · rw [hreset2] at hin2
      rcases processFold_reset_mem sr cfg name l1 ⟨db, [], [], [], [], []⟩ task.record_id hin2 with
        hin0 | ⟨p, hp, task', ht', hr'⟩
      · exact absurd hin0 (List.not_mem_nil _)
      · exact hotherdb p (hne1 p hp) task' ht' hr'
    · rw [findTask_eq_of_tasks _ db hst2tasks p.1] at ht'
      exact hotherdb p (hne2 p hp) task' ht' hr'
  have hnotreset' : task.record_id ∉
      (processResults sr cfg name db (l1 ++ (tid, r) :: l2)).to_be_reset := by
    rw [processResults_decomp sr cfg name db l1 l2 tid r]
    exact hnotreset
  have hrec2' : findRecord (processResults sr cfg name db (l1 ++ (tid, r) :: l2)).db
      task.record_id =
      findRecord
        (updateFinishedStep sr cfg name (processResults sr cfg name db l1) (tid, r)).db
        task.record_id := by
    rw [processResults_decomp sr cfg name db l1 l2 tid r]
    exact hrec2
  rw [hdb']
  by_cases hcond : (cfg.enabled && !(processResults sr cfg name db
      (l1 ++ (tid, r) :: l2)).to_be_reset.isEmpty) = true
  · rw [if_pos hcond, resetRecords_findRecord_not_mem _ _ _ hnotreset', findRecord_setManager]
    exact hrec2'
  · rw [if_neg hcond, findRecord_setManager]
    exact hrec2'

/-!
C6: manager counters and returned metadata.
-/

/-- C6: after a successful update_finished batch, the returned accepted ids
are exactly the applied successes followed by the applied recognized
failures; the manager's successes, failures and rejected counters grow by
exactly those numbers; every accepted success id names a task whose record
ends the call complete; every accepted failure id names a task whose record
ends the call in error (or waiting, if the reset policy resubmitted it); and
every rejected entry pairs a task id of the submitted batch with its
reason. -/
theorem update_finished_counters (sr : RecordRow → AutoResetConfig → Bool)
    (cfg : AutoResetConfig) (db : DB) (name : String)
    (results : List (Nat × ResultPayload)) (db' : DB) (meta : TaskReturnMetadata)
    (m : ManagerRow)
    (hinj : taskRecordsInjective db)
    (hkeys : (results.map Prod.fst).Nodup)
    (hm : findManager db name = some m)
    (hok : update_finished sr cfg db name results = Except.ok (db', meta)) :
    ∃ succ fails,
      meta.accepted_ids = succ ++ fails ∧
      findManager db' name = some
        { m with
            successes := m.successes + succ.length
            failures := m.failures + fails.length
            rejected := m.rejected + meta.rejected_info.length } ∧
      (∀ tid ∈ succ, ∃ task rec', findTask db tid = some task ∧
        findRecord db' task.record_id = some rec' ∧
        rec'.status = RecordStatusEnum.complete) ∧
      (∀ tid ∈ fails, ∃ task rec', findTask db tid = some task ∧
        findRecord db' task.record_id = some rec' ∧
        (rec'.status = RecordStatusEnum.error ∨ rec'.status = RecordStatusEnum.waiting)) ∧
      (∀ e ∈ meta.rejected_info, ∃ rr, (e.1, rr) ∈ results) := by
  obtain ⟨m2, hm2, hact, hmeta, hdb'⟩ := update_finished_ok_inv sr cfg db name results db' meta hok
  rw [hm] at hm2
  injection hm2 with hm2
  subst hm2
  subst hmeta
  refine ⟨(processResults sr cfg name db results).tasks_success,
    (processResults sr cfg name db results).tasks_failures, rfl, ?_, ?_, ?_, ?_⟩
  · -- the manager counters
    have hname : (managerWithStats m (processResults sr cfg name db results)).name = name :=
      findManager_name db name m hm
    have hms : findManager (processResults sr cfg name db results).db name = some m := by
      rw [findManager_eq_of_managers _ db (processResults_managers sr cfg name db results) name]
      exact hm
    have hsm : findManager
        (setManager (processResults sr cfg name db results).db
          (managerWithStats m (processResults sr cfg name db results))) name =
        some (managerWithStats m (processResults sr cfg name db results)) := by
      have h1 := findManager_setManager_self (processResults sr cfg name db results).db
        (managerWithStats m (processResults sr cfg name db results))
      rw [hname] at h1
      rw [h1, hms]
      rfl
    rw [hdb']
    by_cases hcond : (cfg.enabled &&
        !(processResults sr cfg name db results).to_be_reset.isEmpty) = true
    · rw [if_pos hcond, findManager_resetRecords]
      exact hsm
    · rw [if_neg hcond]
      exact hsm
  · -- accepted successes end complete
    intro tid htid
    rcases processFold_success_source sr cfg name results ⟨db, [], [], [], [], []⟩ tid htid with
      h0 | hkey
    · exact absurd h0 (List.not_mem_nil _)
    · obtain ⟨p, hp, hfst⟩ := List.mem_map.mp hkey
      obtain ⟨ptid, r⟩ := p
      simp only at hfst
      have hfst' : tid = ptid := hfst.symm
      subst hfst'
      obtain ⟨l1, l2, hsplit⟩ := List.append_of_mem hp
      subst hsplit
      obtain ⟨hne1, hne2⟩ := keys_ne_of_nodup l1 l2 tid r hkeys
      have hst1tasks : (processResults sr cfg name db l1).db.tasks = db.tasks :=
        processResults_tasks sr cfg name db l1
      have hnot1 : tid ∉ (processResults sr cfg name db l1).tasks_success := by
        intro hin
        rcases processFold_success_source sr cfg name l1 ⟨db, [], [], [], [], []⟩ tid hin with
          h0 | hkey1
        · exact absurd h0 (List.not_mem_nil _)
        · obtain ⟨q, hq, hqf⟩ := List.mem_map.mp hkey1
          exact hne1 q hq hqf
      have htid2 : tid ∈ (updateFinishedStep sr cfg name
          (processResults sr cfg name db l1) (tid, r)).tasks_success := by
        rw [processResults_decomp sr cfg name db l1 l2 tid r] at htid
        rcases processFold_success_source sr cfg name l2 _ tid htid with h2 | hkey2
        · exact h2
        · obtain ⟨q, hq, hqf⟩ := List.mem_map.mp hkey2
          exact absurd hqf (hne2 q hq)
      rcases updateFinishedStep_success_src sr cfg name
          (processResults sr cfg name db l1) tid tid r htid2 with h1 | hbranch
      · exact absurd h1 hnot1
      · obtain ⟨_, task, rec, htask1, hrec1, hrun, hmgr, hsucc, hnr, hstep⟩ := hbranch
        have htaskdb : findTask db tid = some task := by
          rw [← findTask_eq_of_tasks _ db hst1tasks tid]
          exact htask1
        have hR : (update_completed_task rec name).record_id = task.record_id :=
          findRecord_id (processResults sr cfg name db l1).db task.record_id rec hrec1
        have hst2rec : findRecord
            (updateFinishedStep sr cfg name (processResults sr cfg name db l1) (tid, r)).db
            task.record_id = some (update_completed_task rec name) := by
          rw [hstep]
          show findRecord (setRecord (processResults sr cfg name db l1).db
            (update_completed_task rec name)) task.record_id = _
          rw [← hR, findRecord_setRecord_self, hR, hrec1]
          rfl
        have hfinal := pair_record_final sr cfg db name l1 l2 tid r db' _ hinj hkeys hok
          (by rw [hstep]) task htaskdb
        refine ⟨task, update_completed_task rec name, htaskdb, ?_, rfl⟩
        rw [hfinal]
        exact hst2rec
  · -- accepted failures end error or waiting
    intro tid htid
    rcases processFold_failures_source sr cfg name results ⟨db, [], [], [], [], []⟩ tid htid with
      h0 | hkey
    · exact absurd h0 (List.not_mem_nil _)
    · obtain ⟨p, hp, hfst⟩ := List.mem_map.mp hkey
      obtain ⟨ptid, r⟩ := p
      simp only at hfst
      have hfst' : tid = ptid := hfst.symm
      subst hfst'
      obtain ⟨l1, l2, hsplit⟩ := List.append_of_mem hp
      subst hsplit
      obtain ⟨hne1, hne2⟩ := keys_ne_of_nodup l1 l2 tid r hkeys
      have hst1tasks : (processResults sr cfg name db l1).db.tasks = db.tasks :=
        processResults_tasks sr cfg name db l1
      have hnot1 : tid ∉ (processResults sr cfg name db l1).tasks_failures := by
        intro hin
        rcases processFold_failures_source sr cfg name l1 ⟨db, [], [], [], [], []⟩ tid hin with
          h0 | hkey1
        · exact absurd h0 (List.not_mem_nil _)
        · obtain ⟨q, hq, hqf⟩ := List.mem_map.mp hkey1
          exact hne1 q hq hqf
      have htid2 : tid ∈ (updateFinishedStep sr cfg name
          (processResults sr cfg name db l1) (tid, r)).tasks_failures := by
        rw [processResults_decomp sr cfg name db l1 l2 tid r] at htid
        rcases processFold_failures_source sr cfg name l2 _ tid htid with h2 | hkey2
        · exact h2
        · obtain ⟨q, hq, hqf⟩ := List.mem_map.mp hkey2
          exact absurd hqf (hne2 q hq)
      rcases updateFinishedStep_failures_src sr cfg name
          (processResults sr cfg name db l1) tid tid r htid2 with h1 | hbranch
      · exact absurd h1 hnot1
      · obtain ⟨_, task, rec, htask1, hrec1, hrun, hmgr, hsucc, hfo, hnr, hstep⟩ := hbranch
        have htaskdb : findTask db tid = some task := by
          rw [← findTask_eq_of_tasks _ db hst1tasks tid]
          exact htask1
        have hR : (update_failed_task rec r.error_type name).record_id = task.record_id :=
          findRecord_id (processResults sr cfg name db l1).db task.record_id rec hrec1
        have hst2rec : findRecord
            (updateFinishedStep sr cfg name (processResults sr cfg name db l1) (tid, r)).db
            task.record_id = some (update_failed_task rec r.error_type name) := by
          rw [hstep]
          show findRecord (setRecord (processResults sr cfg name db l1).db
            (update_failed_task rec r.error_type name)) task.record_id = _
          rw [← hR, findRecord_setRecord_self, hR, hrec1]
          rfl
        -- the record is untouched while processing the rest of the batch
        have hst2tasks : (updateFinishedStep sr cfg name
            (processResults sr cfg name db l1) (tid, r)).db.tasks = db.tasks := by
          rw [updateFinishedStep_db_tasks]
          exact hst1tasks
        have hrecF : findRecord
            (processResults sr cfg name db (l1 ++ (tid, r) :: l2)).db task.record_id =
            some (update_failed_task rec r.error_type name) := by
          rw [processResults_decomp sr cfg name db l1 l2 tid r]
          rw [processFold_other_record sr cfg name l2 _ task.record_id ?_]
          · exact hst2rec
          · intro q hq task' htask'
            rw [findTask_eq_of_tasks _ db hst2tasks q.1] at htask'
            exact task_record_ne db hinj task' task (findTask_mem db q.1 task' htask')
              (findTask_mem db tid task htaskdb)
              (by
                rw [findTask_id db q.1 task' htask', findTask_id db tid task htaskdb]
                exact hne2 q hq)
        rw [hdb']
        by_cases hcond : (cfg.enabled && !(processResults sr cfg name db
            (l1 ++ (tid, r) :: l2)).to_be_reset.isEmpty) = true
        · rw [if_pos hcond]
          refine ⟨task, resetRow (processResults sr cfg name db
            (l1 ++ (tid, r) :: l2)).to_be_reset (update_failed_task rec r.error_type name),
            htaskdb, ?_, ?_⟩
          · rw [resetRecords_findRecord, findRecord_setManager, hrecF]
            rfl
          · unfold resetRow
            split
            · exact Or.inr rfl
            · exact Or.inl rfl
        · rw [if_neg hcond]
          refine ⟨task, update_failed_task rec r.error_type name, htaskdb, ?_, Or.inl rfl⟩
          rw [findRecord_setManager]
          exact hrecF
  · -- every rejected entry names a task id of the batch
    intro e he
    rcases processFold_rejected_source sr cfg name results ⟨db, [], [], [], [], []⟩ e he with
      h0 | hkey
    · exact absurd h0 (List.not_mem_nil _)
    · obtain ⟨p, hp, hfst⟩ := List.mem_map.mp hkey
      refine ⟨p.2, ?_⟩
      rw [← hfst]
      exact hp

/-!
C7: the automatic reset policy.
-/

/-- C7: in a successful update_finished batch, with auto reset disabled no
record moves to waiting (no automatic reset happens at all, every record is
either untouched or freshly complete/error); and whenever a record does move
to waiting, it is because this very call applied a recognized failure
outcome to it - the record was running and owned by the submitting manager,
its result was a FailedOperation applied without an exception - with auto
reset enabled and with should_reset recommending the reset on the
freshly-failed record; the reset itself is applied in the single batch after
the loop. -/
theorem update_finished_auto_reset (sr : RecordRow → AutoResetConfig → Bool)
    (cfg : AutoResetConfig) (db : DB) (name : String)
    (results : List (Nat × ResultPayload)) (db' : DB) (meta : TaskReturnMetadata)
    (hinj : taskRecordsInjective db)
    (hkeys : (results.map Prod.fst).Nodup)
    (hok : update_finished sr cfg db name results = Except.ok (db', meta)) :
    (cfg.enabled = false →
      ∀ rid rec rec', findRecord db rid = some rec → findRecord db' rid = some rec' →
        rec'.status = RecordStatusEnum.waiting → rec = rec') ∧
    (∀ rid rec rec', findRecord db rid = some rec → findRecord db' rid = some rec' →
      rec'.status = RecordStatusEnum.waiting → rec.status ≠ RecordStatusEnum.waiting →
      ∃ tid r2 task, (tid, r2) ∈ results ∧ findTask db tid = some task ∧
        task.record_id = rid ∧
        r2.success = false ∧ r2.is_failed_operation = true ∧ r2.apply_raises = false ∧
        cfg.enabled = true ∧ rec.status = RecordStatusEnum.running ∧
        rec.manager_name = some name ∧
        sr (update_failed_task rec r2.error_type name) cfg = true) := by
  obtain ⟨m, hm, hact, hmeta, hdb'⟩ := update_finished_ok_inv sr cfg db name results db' meta hok
  constructor
  · intro henb rid rec rec' h1 h2 hw
    rw [hdb', if_neg (by simp [henb]), findRecord_setManager] at h2
    rcases processFold_record_status sr cfg name results ⟨db, [], [], [], [], []⟩ rid with
      heq | ⟨rr, hrr, hst⟩
    · rw [show findRecord (processResults sr cfg name db results).db rid =
          findRecord db rid from heq] at h2
      rw [h1] at h2
      injection h2
    · rw [show findRecord (processResults sr cfg name db results).db rid =
          some rr from hrr] at h2
      injection h2 with h2
      subst h2
      rcases hst with hst | hst
      · rw [hst] at hw
        cases hw
      · rw [hst] at hw
        cases hw
  · intro rid rec rec' h1 h2 hw hnw
    -- the reset must have happened in the batched reset step
    have hrid : rid ∈ (processResults sr cfg name db results).to_be_reset := by
      by_cases hcond : (cfg.enabled &&
          !(processResults sr cfg name db results).to_be_reset.isEmpty) = true
      · rw [hdb', if_pos hcond, resetRecords_findRecord, findRecord_setManager] at h2
        rcases processFold_record_status sr cfg name results ⟨db, [], [], [], [], []⟩ rid with
          heq | ⟨rr, hrr, hst⟩
        · rw [show findRecord (processResults sr cfg name db results).db rid =
              findRecord db rid from heq, h1] at h2
          have h2 : some (resetRow (processResults sr cfg name db results).to_be_reset rec) =
              some rec' := h2
          injection h2 with h2
          unfold resetRow at h2
          by_cases hc : ((processResults sr cfg name db results).to_be_reset.contains
              rec.record_id && rec.status == RecordStatusEnum.error) = true
          · rw [Bool.and_eq_true] at hc
            rw [findRecord_id db rid rec h1] at hc
            exact List.elem_iff.mp hc.1
          · rw [if_neg hc] at h2
            subst h2
            exact absurd hw hnw
        · rw [show findRecord (processResults sr cfg name db results).db rid =
              some rr from hrr] at h2
          have h2 : some (resetRow (processResults sr cfg name db results).to_be_reset rr) =
              some rec' := h2
          injection h2 with h2
          unfold resetRow at h2
          by_cases hc : ((processResults sr cfg name db results).to_be_reset.contains
              rr.record_id && rr.status == RecordStatusEnum.error) = true
          · rw [Bool.and_eq_true] at hc
            rw [findRecord_id _ rid rr (by exact hrr)] at hc
            exact List.elem_iff.mp hc.1
          · rw [if_neg hc] at h2
            subst h2
            rcases hst with hst | hst
            · rw [hst] at hw
              cases hw
            · rw [hst] at hw
              cases hw
      · rw [hdb', if_neg hcond, findRecord_setManager] at h2
        rcases processFold_record_status sr cfg name results ⟨db, [], [], [], [], []⟩ rid with
          heq | ⟨rr, hrr, hst⟩
        · rw [show findRecord (processResults sr cfg name db results).db rid =
              findRecord db rid from heq, h1] at h2
          injection h2 with h2
          rw [h2] at hnw
          exact absurd hw hnw
        · rw [show findRecord (processResults sr cfg name db results).db rid =
              some rr from hrr] at h2
          injection h2 with h2
          subst h2
          rcases hst with hst | hst
          · rw [hst] at hw
            cases hw
          · rw [hst] at hw
            cases hw
    -- find the pair that enqueued the reset
    rcases processFold_reset_mem sr cfg name results ⟨db, [], [], [], [], []⟩ rid hrid with
      h0 | ⟨p, hp, task0, ht0, hr0⟩
    · exact absurd h0 (List.not_mem_nil _)
    · obtain ⟨l1, l2, hsplit⟩ := List.append_of_mem hp
      subst hsplit
      obtain ⟨hne1, hne2⟩ := keys_ne_of_nodup l1 l2 p.1 p.2 (by exact hkeys)
      have hst1tasks : (processResults sr cfg name db l1).db.tasks = db.tasks :=
        processResults_tasks sr cfg name db l1
      have hst2tasks : (updateFinishedStep sr cfg name
          (processResults sr cfg name db l1) (p.1, p.2)).db.tasks = db.tasks := by
        rw [updateFinishedStep_db_tasks]
        exact hst1tasks
      have hotherdb : ∀ (q : Nat × ResultPayload), q.1 ≠ p.1 → ∀ task',
          findTask db q.1 = some task' → task'.record_id ≠ rid := by
        intro q hq task' htask'
        have := task_record_ne db hinj task' task0 (findTask_mem db q.1 task' htask')
          (findTask_mem db p.1 task0 ht0)
          (by rw [findTask_id db q.1 task' htask', findTask_id db p.1 task0 ht0]; exact hq)
        rw [hr0] at this
        exact this
      have hrid2 : rid ∈ (updateFinishedStep sr cfg name
          (processResults sr cfg name db l1) (p.1, p.2)).to_be_reset := by
        rw [processResults_decomp sr cfg name db l1 l2 p.1 p.2] at hrid
        rcases processFold_reset_mem sr cfg name l2 _ rid hrid with h2' | ⟨q, hq, task', ht', hr'⟩
        · exact h2'
        · rw [findTask_eq_of_tasks _ db hst2tasks q.1] at ht'
          exact absurd hr' (hotherdb q (hne2 q hq) task' ht')
      rcases updateFinishedStep_reset_src sr cfg name
          (processResults sr cfg name db l1) p.1 p.2 rid hrid2 with h1' | hinfo
      · rcases processFold_reset_mem sr cfg name l1 ⟨db, [], [], [], [], []⟩ rid h1' with
          h0 | ⟨q, hq, task', ht', hr'⟩
        · exact absurd h0 (List.not_mem_nil _)
        · exact absurd hr' (hotherdb q (hne1 q hq) task' ht')
      · obtain ⟨task, rec2, htask1, hrec1, hridt, hrun, hmgr, hsucc, hfo, hnr, henb, hsr⟩ := hinfo
        have htaskdb : findTask db p.1 = some task := by
          rw [← findTask_eq_of_tasks _ db hst1tasks p.1]
          exact htask1
        -- the record was untouched while processing the first part of the batch
        have hrecdb : findRecord db rid = some rec2 := by
          rw [← hridt]
          rw [← processFold_other_record sr cfg name l1 ⟨db, [], [], [], [], []⟩ task.record_id ?_]
          · rw [hridt] at hrec1 ⊢
            show findRecord (processResults sr cfg name db l1).db rid = some rec2
            exact hrec1
          · intro q hq task' htask'
            have h' := hotherdb q (hne1 q hq) task' htask'
            rw [← hridt] at h'
            exact h'
        rw [h1] at hrecdb
        injection hrecdb with hrecdb
        subst hrecdb
        exact ⟨p.1, p.2, task, by exact hp, htaskdb, hridt, hsucc, hfo, hnr, henb,
          hrun, hmgr, hsr⟩

/-!
C1 machinery: comparing the run over a batch containing one
internally-inconsistent pair with the run over the batch without it.
-/

/-- The rejection reason attached to an internally-inconsistent result: a
result whose outcome application raises is rejected as an internal server
error; a result that is neither a success nor a FailedOperation is rejected
for its unexpected shape. -/
def badReason (r : ResultPayload) : String :=
  if r.apply_raises then "Internal server error"
  else "Returned success=False, but not a FailedOperation"

theorem processResults_append (sr : RecordRow → AutoResetConfig → Bool)
    (cfg : AutoResetConfig) (name : String) (db : DB)
    (l1 l2 : List (Nat × ResultPayload)) :
    processResults sr cfg name db (l1 ++ l2) =
      l2.foldl (updateFinishedStep sr cfg name) (processResults sr cfg name db l1) := by
  unfold processResults
  rw [List.foldl_append]

theorem setRecord_agree (d1 d2 : DB) (row : RecordRow) (R : Nat)
    (h : ∀ rid, rid ≠ R → findRecord d1 rid = findRecord d2 rid) :
    ∀ rid, rid ≠ R → findRecord (setRecord d1 row) rid = findRecord (setRecord d2 row) rid := by
  intro rid hr
  by_cases he : rid = row.record_id
  · subst he
    rw [findRecord_setRecord_self, findRecord_setRecord_self, h _ hr]
  · rw [findRecord_setRecord_ne d1 row rid he, findRecord_setRecord_ne d2 row rid he, h rid hr]

/-- Relation between the loop state of the run containing one extra
internally-inconsistent pair (whose task owns record R and which was
rejected with entry bad after X earlier rejections) and the state of the run
without that pair: the databases agree outside R, the success and failure
lists and the reset queue coincide, and the rejection lists differ exactly
by the bad entry. -/
structure StAgree (s1 s2 : LoopState) (R : Nat) (X : List (Nat × String))
    (bad : Nat × String) : Prop where
  tasks_eq : s1.db.tasks = s2.db.tasks
  recs_eq : ∀ rid, rid ≠ R → findRecord s1.db rid = findRecord s2.db rid
  succ_eq : s1.tasks_success = s2.tasks_success
  fail_eq : s1.tasks_failures = s2.tasks_failures
  reset_eq : s1.to_be_reset = s2.to_be_reset
  rej_split : ∃ C, s1.tasks_rejected = X ++ [bad] ++ C ∧ s2.tasks_rejected = X ++ C

/-- Processing a pair that does not own record R preserves the agreement
between the two runs. -/
theorem step_agree (sr : RecordRow → AutoResetConfig → Bool) (cfg : AutoResetConfig)
    (name : String) (s1 s2 : LoopState) (R : Nat) (X : List (Nat × String))
    (bad : Nat × String) (p : Nat × ResultPayload)
    (hag : StAgree s1 s2 R X bad)
    (hp : ∀ task', findTask s1.db p.1 = some task' → task'.record_id ≠ R) :
    StAgree (updateFinishedStep sr cfg name s1 p) (updateFinishedStep sr cfg name s2 p)
      R X bad := by
  obtain ⟨htasks, hrecs, hsucc, hfail, hres, C, hrej1, hrej2⟩ := hag
  obtain ⟨ptid, r⟩ := p
  have hrejC : ∀ e : Nat × String,
      ∃ C2, s1.tasks_rejected ++ [e] = X ++ [bad] ++ C2 ∧
        s2.tasks_rejected ++ [e] = X ++ C2 := by
    intro e
    refine ⟨C ++ [e], ?_, ?_⟩
    · rw [hrej1]
      simp [List.append_assoc]
    · rw [hrej2]
      simp [List.append_assoc]
  rcases h1 : findTask s1.db ptid with _ | task
  · have h1' : findTask s2.db ptid = none := by
      rw [← findTask_eq_of_tasks s1.db s2.db htasks ptid]
      exact h1
    rw [step_task_missing sr cfg name s1 ptid r h1, step_task_missing sr cfg name s2 ptid r h1']
    exact ⟨htasks, hrecs, hsucc, hfail, hres, hrejC _⟩
  · have h1' : findTask s2.db ptid = some task := by
      rw [← findTask_eq_of_tasks s1.db s2.db htasks ptid]
      exact h1
    have hRne : task.record_id ≠ R := hp task h1
    rcases h2 : findRecord s1.db task.record_id with _ | rec
    · have h2' : findRecord s2.db task.record_id = none := by
        rw [← hrecs task.record_id hRne]
        exact h2
      rw [step_record_missing sr cfg name s1 ptid r task h1 h2,
        step_record_missing sr cfg name s2 ptid r task h1' h2']
      exact ⟨htasks, hrecs, hsucc, hfail, hres, hrejC _⟩
    · have h2' : findRecord s2.db task.record_id = some rec := by
        rw [← hrecs task.record_id hRne]
        exact h2
      by_cases hc1 : rec.status = RecordStatusEnum.running
      swap
      · rw [step_not_running sr cfg name s1 ptid r task rec h1 h2 hc1,
          step_not_running sr cfg name s2 ptid r task rec h1' h2' hc1]
        exact ⟨htasks, hrecs, hsucc, hfail, hres, hrejC _⟩
      by_cases hc2 : rec.manager_name = some name
      swap
      · rw [step_wrong_manager sr cfg name s1 ptid r task rec h1 h2 hc1 hc2,
          step_wrong_manager sr cfg name s2 ptid r task rec h1' h2' hc1 hc2]
        exact ⟨htasks, hrecs, hsucc, hfail, hres, hrejC _⟩
      by_cases hc4 : r.apply_raises = true
      · rw [step_internal_error sr cfg name s1 ptid r task rec h1 h2 hc1 hc2 hc4,
          step_internal_error sr cfg name s2 ptid r task rec h1' h2' hc1 hc2 hc4]
        unfold internalErrorStep
        refine ⟨?_, ?_, hsucc, hfail, hres, hrejC _⟩
        · show (setRecord s1.db _).tasks = (setRecord s2.db _).tasks
          rw [setRecord_tasks, setRecord_tasks]
          exact htasks
        · exact setRecord_agree s1.db s2.db _ R hrecs
      · have hc4' : r.apply_raises = false := by
          cases hra : r.apply_raises
          · rfl
          · exact absurd hra hc4
        cases hs : r.success
        · by_cases hfo : r.is_failed_operation = true
          · rw [step_failure sr cfg name s1 ptid r task rec h1 h2 hc1 hc2 hs hfo hc4',
              step_failure sr cfg name s2 ptid r task rec h1' h2' hc1 hc2 hs hfo hc4']
            refine ⟨?_, ?_, hsucc, ?_, ?_, ⟨C, hrej1, hrej2⟩⟩
            · show (setRecord s1.db _).tasks = (setRecord s2.db _).tasks
              rw [setRecord_tasks, setRecord_tasks]
              exact htasks
            · exact setRecord_agree s1.db s2.db _ R hrecs
            · show s1.tasks_failures ++ [ptid] = s2.tasks_failures ++ [ptid]
              rw [hfail]
            · show (if cfg.enabled && sr (update_failed_task rec r.error_type name) cfg then
                  s1.to_be_reset ++ [rec.record_id] else s1.to_be_reset) =
                (if cfg.enabled && sr (update_failed_task rec r.error_type name) cfg then
                  s2.to_be_reset ++ [rec.record_id] else s2.to_be_reset)
              rw [hres]
          · have hfo' : r.is_failed_operation = false := by
              cases hf : r.is_failed_operation
              · rfl
              · exact absurd hf hfo
            rw [step_malformed sr cfg name s1 ptid r task rec h1 h2 hc1 hc2 hs hfo' hc4',
              step_malformed sr cfg name s2 ptid r task rec h1' h2' hc1 hc2 hs hfo' hc4']
            refine ⟨?_, ?_, hsucc, hfail, hres, hrejC _⟩
            · show (setRecord s1.db _).tasks = (setRecord s2.db _).tasks
              rw [setRecord_tasks, setRecord_tasks]
              exact htasks
            · exact setRecord_agree s1.db s2.db _ R hrecs
        · rw [step_success sr cfg name s1 ptid r task rec h1 h2 hc1 hc2 hs hc4',
            step_success sr cfg name s2 ptid r task rec h1' h2' hc1 hc2 hs hc4']
          refine ⟨?_, ?_, ?_, hfail, hres, ⟨C, hrej1, hrej2⟩⟩
          · show (setRecord s1.db _).tasks = (setRecord s2.db _).tasks
            rw [setRecord_tasks, setRecord_tasks]
            exact htasks
          · exact setRecord_agree s1.db s2.db _ R hrecs
          · show s1.tasks_success ++ [ptid] = s2.tasks_success ++ [ptid]
            rw [hsucc]

/-- Folding over pairs none of which owns record R preserves the agreement
between the two runs. -/
theorem fold_agree (sr : RecordRow → AutoResetConfig → Bool) (cfg : AutoResetConfig)
    (name : String) (l : List (Nat × ResultPayload)) :
    ∀ (s1 s2 : LoopState) (R : Nat) (X : List (Nat × String)) (bad : Nat × String),
      StAgree s1 s2 R X bad →
      (∀ p ∈ l, ∀ task', findTask s1.db p.1 = some task' → task'.record_id ≠ R) →
      StAgree (l.foldl (updateFinishedStep sr cfg name) s1)
        (l.foldl (updateFinishedStep sr cfg name) s2) R X bad := by
  induction l with
  | nil => intro s1 s2 R X bad hag hp; exact hag
  | cons p ps ih =>
    intro s1 s2 R X bad hag hp
    rw [List.foldl_cons, List.foldl_cons]
    refine ih _ _ R X bad (step_agree sr cfg name s1 s2 R X bad p hag
      (hp p (List.mem_cons_self _ _))) ?_
    intro q hq task' htask'
    refine hp q (List.mem_cons_of_mem _ hq) task' ?_
    rw [findTask_eq_of_tasks _ s1.db (updateFinishedStep_db_tasks sr cfg name s1 p) q.1] at htask'
    exact htask'

/-!
C1: internal-error handling and batch isolation.
-/

/-- C1: take a batch containing one internally-inconsistent pair - its
result either raises an unhandled exception while its outcome is applied, or
is neither a success nor a recognized FailedOperation - for a running record
claimed by the submitting manager.  Then the call rejects that task with the
corresponding internal reason, applies a synthetic failure payload tagged
internal_fractal_error so the record ends the call in error with exactly
that entry appended to its history (the rolled-back nested work leaves no
other trace), and every other task of the batch is completely unaffected:
compared with the same call on the batch without the bad pair, the accepted
ids are identical, the rejection list differs exactly by the bad pair's
entry, and every record other than the bad pair's ends in the same row. -/
theorem update_finished_internal_error_isolation (sr : RecordRow → AutoResetConfig → Bool)
    (cfg : AutoResetConfig) (db : DB) (name : String)
    (l1 l2 : List (Nat × ResultPayload)) (tid : Nat) (r : ResultPayload)
    (db' : DB) (meta : TaskReturnMetadata) (db'' : DB) (meta' : TaskReturnMetadata)
    (hinj : taskRecordsInjective db)
    (hkeys : ((l1 ++ (tid, r) :: l2).map Prod.fst).Nodup)
    (task : TaskRow) (rec : RecordRow)
    (htask : findTask db tid = some task)
    (hrec : findRecord db task.record_id = some rec)
    (hrun : rec.status = RecordStatusEnum.running)
    (hmgr : rec.manager_name = some name)
    (hbad : r.apply_raises = true ∨ (r.success = false ∧ r.is_failed_operation = false))
    (hok : update_finished sr cfg db name (l1 ++ (tid, r) :: l2) = Except.ok (db', meta))
    (hok2 : update_finished sr cfg db name (l1 ++ l2) = Except.ok (db'', meta')) :
    (tid, badReason r) ∈ meta.rejected_info ∧
    (∃ rec', findRecord db' task.record_id = some rec' ∧
      rec'.status = RecordStatusEnum.error ∧
      rec'.compute_history = rec.compute_history ++
        [⟨RecordStatusEnum.error, name, some internal_fractal_error⟩]) ∧
    meta'.accepted_ids = meta.accepted_ids ∧
    (∃ X C, meta.rejected_info = X ++ [(tid, badReason r)] ++ C ∧
      meta'.rejected_info = X ++ C) ∧
    (∀ rid, rid ≠ task.record_id → findRecord db'' rid = findRecord db' rid) := by
  obtain ⟨m, hm, hact, hmeta, hdb'⟩ := update_finished_ok_inv sr cfg db name _ db' meta hok
  obtain ⟨m2, hm2, hact2, hmeta2, hdb''⟩ := update_finished_ok_inv sr cfg db name _ db'' meta' hok2
  rw [hm] at hm2
  injection hm2 with hm2
  subst hm2
  subst hmeta
  subst hmeta2
  obtain ⟨hne1, hne2⟩ := keys_ne_of_nodup l1 l2 tid r hkeys
  have hst1tasks : (processResults sr cfg name db l1).db.tasks = db.tasks :=
    processResults_tasks sr cfg name db l1
  have htask1 : findTask (processResults sr cfg name db l1).db tid = some task := by
    rw [findTask_eq_of_tasks _ db hst1tasks]
    exact htask
  have hotherl1 : ∀ p ∈ l1, ∀ task', findTask db p.1 = some task' →
      task'.record_id ≠ task.record_id := by
    intro p hp task' htask'
    exact task_record_ne db hinj task' task (findTask_mem db p.1 task' htask')
      (findTask_mem db tid task htask)
      (by
        rw [findTask_id db p.1 task' htask', findTask_id db tid task htask]
        exact hne1 p hp)
  have hrec1 : findRecord (processResults sr cfg name db l1).db task.record_id = some rec := by
    have h : findRecord (processResults sr cfg name db l1).db task.record_id =
        findRecord db task.record_id :=
      processFold_other_record sr cfg name l1 ⟨db, [], [], [], [], []⟩ task.record_id
        (fun p hp task' htask' => hotherl1 p hp task' htask')
    rw [h]
    exact hrec
  have hRid : (update_failed_task rec (some internal_fractal_error) name).record_id =
      task.record_id :=
    findRecord_id (processResults sr cfg name db l1).db task.record_id rec hrec1
  -- the step at the bad pair
  have hstep : updateFinishedStep sr cfg name (processResults sr cfg name db l1) (tid, r) =
      { processResults sr cfg name db l1 with
          db := setRecord (processResults sr cfg name db l1).db
            (update_failed_task rec (some internal_fractal_error) name)
          tasks_rejected :=
            (processResults sr cfg name db l1).tasks_rejected ++ [(tid, badReason r)]
          all_notifications :=
            (processResults sr cfg name db l1).all_notifications ++
              [(rec.record_id, RecordStatusEnum.error)] } := by
    by_cases hc4 : r.apply_raises = true
    · have hbr : badReason r = "Internal server error" := by
        unfold badReason
        rw [if_pos hc4]
      rw [hbr, step_internal_error sr cfg name _ tid r task rec htask1 hrec1 hrun hmgr hc4]
      rfl
    · have hc4' : r.apply_raises = false := by
        cases hra : r.apply_raises
        · rfl
        · exact absurd hra hc4
      obtain hra | ⟨hsf, hnfo⟩ := hbad
      · exact absurd hra hc4
      · have hbr : badReason r = "Returned success=False, but not a FailedOperation" := by
          unfold badReason
          rw [if_neg hc4]
        rw [hbr, step_malformed sr cfg name _ tid r task rec htask1 hrec1 hrun hmgr hsf hnfo hc4']
  refine ⟨?_, ?_, ?_, ?_, ?_⟩
  · -- the bad pair is rejected with its internal reason
    show (tid, badReason r) ∈
      (processResults sr cfg name db (l1 ++ (tid, r) :: l2)).tasks_rejected
    rw [processResults_decomp sr cfg name db l1 l2 tid r]
    obtain ⟨s2x, hs2x⟩ := processFold_rejected_mono sr cfg name l2
      (updateFinishedStep sr cfg name (processResults sr cfg name db l1) (tid, r))
    rw [hs2x, hstep]
    exact List.mem_append.mpr (Or.inl
      (List.mem_append.mpr (Or.inr (List.mem_singleton.mpr rfl))))
  · -- the record ends the call in error with the synthetic failure applied
    have hreset2 : (updateFinishedStep sr cfg name
        (processResults sr cfg name db l1) (tid, r)).to_be_reset =
        (processResults sr cfg name db l1).to_be_reset := by
      rw [hstep]
    have hfinal := pair_record_final sr cfg db name l1 l2 tid r db' _ hinj hkeys hok
      hreset2 task htask
    have hst2rec : findRecord (updateFinishedStep sr cfg name
        (processResults sr cfg name db l1) (tid, r)).db task.record_id =
        some (update_failed_task rec (some internal_fractal_error) name) := by
      rw [hstep]
      show findRecord (setRecord (processResults sr cfg name db l1).db
        (update_failed_task rec (some internal_fractal_error) name)) task.record_id = _
      rw [← hRid, findRecord_setRecord_self, hRid, hrec1]
      rfl
    refine ⟨update_failed_task rec (some internal_fractal_error) name, ?_, rfl, rfl⟩
    rw [hfinal]
    exact hst2rec
  all_goals
    have hag0 : StAgree
        (updateFinishedStep sr cfg name (processResults sr cfg name db l1) (tid, r))
        (processResults sr cfg name db l1) task.record_id
        (processResults sr cfg name db l1).tasks_rejected (tid, badReason r) := by
      refine ⟨?_, ?_, ?_, ?_, ?_, [], ?_, ?_⟩
      · rw [hstep]
        show (setRecord (processResults sr cfg name db l1).db _).tasks = _
        rw [setRecord_tasks]
      · intro rid hr
        rw [hstep]
        show findRecord (setRecord (processResults sr cfg name db l1).db _) rid = _
        refine findRecord_setRecord_ne _ _ rid ?_
        rw [hRid]
        exact hr
      · rw [hstep]
      · rw [hstep]
      · rw [hstep]
      · rw [hstep]
        simp
      · simp
  all_goals
    have hagF := fold_agree sr cfg name l2 _ _ task.record_id _ _ hag0 ?_
    swap
    · intro p hp task' htask'
      have hst2tasks : (updateFinishedStep sr cfg name
          (processResults sr cfg name db l1) (tid, r)).db.tasks = db.tasks := by
        rw [updateFinishedStep_db_tasks]
        exact hst1tasks
      rw [findTask_eq_of_tasks _ db hst2tasks p.1] at htask'
      exact task_record_ne db hinj task' task (findTask_mem db p.1 task' htask')
        (findTask_mem db tid task htask)
        (by
          rw [findTask_id db p.1 task' htask', findTask_id db tid task htask]
          exact hne2 p hp)
  · -- accepted ids coincide with the run without the bad pair
    show (processResults sr cfg name db (l1 ++ l2)).tasks_success ++
        (processResults sr cfg name db (l1 ++ l2)).tasks_failures =
      (processResults sr cfg name db (l1 ++ (tid, r) :: l2)).tasks_success ++
        (processResults sr cfg name db (l1 ++ (tid, r) :: l2)).tasks_failures
    rw [processResults_decomp sr cfg name db l1 l2 tid r, processResults_append sr cfg name db l1 l2]
    rw [hagF.succ_eq, hagF.fail_eq]
  · -- the rejection lists differ exactly by the bad pair's entry
    obtain ⟨C, hC1, hC2⟩ := hagF.rej_split
    refine ⟨(processResults sr cfg name db l1).tasks_rejected, C, ?_, ?_⟩
    · show (processResults sr cfg name db (l1 ++ (tid, r) :: l2)).tasks_rejected = _
      rw [processResults_decomp sr cfg name db l1 l2 tid r]
      exact hC1
    · show (processResults sr cfg name db (l1 ++ l2)).tasks_rejected = _
      rw [processResults_append sr cfg name db l1 l2]
      exact hC2
  · -- every other record ends in the same row in both runs
    intro rid hr
    have hrecs := hagF.recs_eq rid hr
    have hresets := hagF.reset_eq
    rw [hdb', hdb'']
    rw [processResults_decomp sr cfg name db l1 l2 tid r,
      processResults_append sr cfg name db l1 l2] at *
    by_cases hcond : (cfg.enabled &&
        !(l2.foldl (updateFinishedStep sr cfg name)
          (updateFinishedStep sr cfg name (processResults sr cfg name db l1) (tid, r))).to_be_reset.isEmpty) = true
    · rw [if_pos hcond, if_pos (by rw [← hresets]; exact hcond)]
      rw [resetRecords_findRecord, resetRecords_findRecord, findRecord_setManager,
        findRecord_setManager, hrecs, hresets]
    · rw [if_neg hcond, if_neg (by rw [← hresets]; exact hcond)]
      rw [findRecord_setManager, findRecord_setManager, hrecs]

/-!
C8 and C9: the torsiondrive service engine.
-/

theorem range'_add_append (s m n : Nat) :
    List.range' s (m + n) = List.range' s m ++ List.range' (s + m) n := by
  have h := List.range'_append s m n 1
  simp only [one_mul] at h
  rw [Nat.add_comm m n, ← h]

/-- The dependency ids produced by the per-key submission fold: exactly the
fresh ids nid, nid+1, ..., appended after whatever the accumulator held. -/
theorem submitStep_fold_deps {σ γ : Type} (ser_key : String → String)
    (batch : List (String × List γ)) :
    ∀ (td : TDRecord) (svc : ServiceQueue σ) (nid : Nat),
      ((batch.foldl (submitStep ser_key) (td, svc, nid)).2.1.dependencies.map
          (fun d => d.record_id) =
        svc.dependencies.map (fun d => d.record_id) ++
          List.range' nid (batch.map (fun kv => kv.2.length)).sum) ∧
      (batch.foldl (submitStep ser_key) (td, svc, nid)).2.2 =
        nid + (batch.map (fun kv => kv.2.length)).sum := by
  induction batch with
  | nil =>
    intro td svc nid
    exact ⟨by simp, by simp⟩
  | cons kv rest ih =>
    intro td svc nid
    rw [List.foldl_cons]
    obtain ⟨h1, h2⟩ := ih (submitStep ser_key (td, svc, nid) kv).1
      (submitStep ser_key (td, svc, nid) kv).2.1 (submitStep ser_key (td, svc, nid) kv).2.2
    constructor
    · refine Eq.trans h1 ?_
      show (svc.dependencies ++ (List.range kv.2.length).map
            (fun i => ServiceDependency.mk (nid + i) kv.1 i)).map (fun d => d.record_id) ++
          List.range' (nid + kv.2.length) ((rest.map (fun kv => kv.2.length)).sum) =
        svc.dependencies.map (fun d => d.record_id) ++
          List.range' nid (((kv :: rest).map (fun kv => kv.2.length)).sum)
      rw [List.map_append, List.append_assoc]
      congr 1
      rw [List.map_map]
      rw [show ((fun d : ServiceDependency => d.record_id) ∘
          fun i => ServiceDependency.mk (nid + i) kv.1 i) = (fun i => nid + i) from rfl]
      rw [show (List.range kv.2.length).map (fun i => nid + i) =
          List.range' nid kv.2.length from (List.range'_eq_map_range nid kv.2.length).symm]
      rw [← range'_add_append nid kv.2.length]
      simp
    · refine Eq.trans h2 ?_
      show nid + kv.2.length + (rest.map (fun kv => kv.2.length)).sum =
        nid + ((kv :: rest).map (fun kv => kv.2.length)).sum
      simp [Nat.add_assoc]

/-- C8: whenever an iteration's driver batch is non-empty, the service's
dependency list after the iteration consists of exactly one fresh dependency
per submitted sub-record - their record ids are precisely the newly
allocated ids next_id, next_id+1, ..., one per geometry of the batch - so it
has exactly N entries for a batch of N sub-tasks and carries over no entry
from before the iteration, regardless of what the previous dependency list
was. -/
theorem iterate_service_dependency_replacement {σ γ : Type} (drv : TDDriver σ γ)
    (opt_store : Nat → OptRecord) (mol_geom : Nat → γ) (td : TDRecord)
    (svc : ServiceQueue σ) (next_id : Nat) (s2 : σ) (batch : List (String × List γ))
    (hjobs : drv.next_jobs (drv.update_state svc.service_state
      (buildTaskResults opt_store mol_geom svc.dependencies)) = (s2, batch))
    (hne : batch ≠ []) :
    ∃ td' svc' nid',
      iterate_service drv opt_store mol_geom td svc next_id =
        Except.ok (td', svc', nid', false) ∧
      svc'.dependencies.map (fun d => d.record_id) =
        List.range' next_id (batch.map (fun kv => kv.2.length)).sum ∧
      svc'.dependencies.length = (batch.map (fun kv => kv.2.length)).sum ∧
      nid' = next_id + (batch.map (fun kv => kv.2.length)).sum ∧
      (∀ d ∈ svc'.dependencies, next_id ≤ d.record_id) ∧
      ((∀ d ∈ svc.dependencies, d.record_id < next_id) →
        ∀ d ∈ svc'.dependencies, d ∉ svc.dependencies) := by
  obtain ⟨hdeps, hnid⟩ := submitStep_fold_deps drv.ser_key batch td
    { svc with service_state := s2, dependencies := [] } next_id
  have hlenpos : 0 < batch.length := List.length_pos.mpr hne
  have hdeps' : (submit_optimizations td { svc with service_state := s2 } drv.ser_key
      batch next_id).2.1.dependencies.map (fun d => d.record_id) =
      List.range' next_id (batch.map (fun kv => kv.2.length)).sum := by
    refine Eq.trans ?_ (hdeps.trans ?_)
    · rfl
    · simp
  have hrun : iterate_service drv opt_store mol_geom td svc next_id =
      Except.ok
        (({ (submit_optimizations td { svc with service_state := s2 } drv.ser_key
              batch next_id).1 with
            stdout := (submit_optimizations td { svc with service_state := s2 } drv.ser_key
              batch next_id).1.stdout ++ "\n" ++ drv.captured s2 },
          (submit_optimizations td { svc with service_state := s2 } drv.ser_key
            batch next_id).2.1,
          (submit_optimizations td { svc with service_state := s2 } drv.ser_key
            batch next_id).2.2, false)) := by
    unfold iterate_service
    dsimp only
    rw [hjobs]
    dsimp only
    rw [if_pos hlenpos]
    have hdec : decide (batch.length = 0) = false := decide_eq_false (by omega)
    rw [hdec]
  refine ⟨_, _, _, hrun, hdeps', ?_, ?_, ?_, ?_⟩
  · have := congrArg List.length hdeps'
    rw [List.length_map, List.length_range'] at this
    exact this
  · exact hnid
  · intro d hd
    have hmem : d.record_id ∈ List.range' next_id (batch.map (fun kv => kv.2.length)).sum := by
      rw [← hdeps']
      exact List.mem_map_of_mem _ hd
    exact (List.mem_range'_1.mp hmem).1
  · intro hold d hd hdin
    have hmem : d.record_id ∈ List.range' next_id (batch.map (fun kv => kv.2.length)).sum := by
      rw [← hdeps']
      exact List.mem_map_of_mem _ hd
    have h1 := (List.mem_range'_1.mp hmem).1
    have h2 := hold d hdin
    omega

/-- C9: iterate_service reports done exactly when the driver's next batch is
empty; in that case it checks the driver's lowest energies against the
minimum energies recorded on the record's own optimizations - raising an
error on mismatch - and appends the captured output, persisting the stepped
state; with a non-empty batch it submits the batch and reports not done. -/
theorem iterate_service_done {σ γ : Type} (drv : TDDriver σ γ)
    (opt_store : Nat → OptRecord) (mol_geom : Nat → γ) (td : TDRecord)
    (svc : ServiceQueue σ) (next_id : Nat) (s2 : σ) (batch : List (String × List γ))
    (hjobs : drv.next_jobs (drv.update_state svc.service_state
      (buildTaskResults opt_store mol_geom svc.dependencies)) = (s2, batch)) :
    (batch = [] →
      (dictEq (drv.collect_lowest_energies s2) (minEnergies td.optimizations) = false →
        iterate_service drv opt_store mol_geom td svc next_id =
          Except.error
            "Minimum energies reported by the torsiondrive package do not match ours!") ∧
      (dictEq (drv.collect_lowest_energies s2) (minEnergies td.optimizations) = true →
        iterate_service drv opt_store mol_geom td svc next_id =
          Except.ok ({ td with stdout := td.stdout ++ "\n" ++ drv.captured s2 },
            { svc with service_state := s2 }, next_id, true))) ∧
    (batch ≠ [] → ∃ td' svc' nid',
      iterate_service drv opt_store mol_geom td svc next_id =
        Except.ok (td', svc', nid', false)) ∧
    (∀ td' svc' nid' done2,
      iterate_service drv opt_store mol_geom td svc next_id =
        Except.ok (td', svc', nid', done2) →
      (done2 = true ↔ batch = [])) := by
  have hmain : ∀ (hne : batch ≠ []),
      iterate_service drv opt_store mol_geom td svc next_id =
        Except.ok
          (({ (submit_optimizations td { svc with service_state := s2 } drv.ser_key
                batch next_id).1 with
              stdout := (submit_optimizations td { svc with service_state := s2 } drv.ser_key
                batch next_id).1.stdout ++ "\n" ++ drv.captured s2 },
            (submit_optimizations td { svc with service_state := s2 } drv.ser_key
              batch next_id).2.1,
            (submit_optimizations td { svc with service_state := s2 } drv.ser_key
              batch next_id).2.2, false)) := by
    intro hne
    unfold iterate_service
    dsimp only
    rw [hjobs]
    dsimp only
    rw [if_pos (List.length_pos.mpr hne)]
    have hdec : decide (batch.length = 0) = false :=
      decide_eq_false (fun hc => hne (List.length_eq_zero.mp hc))
    rw [hdec]
  have hmis_eq : ∀ (he : batch = []),
      dictEq (drv.collect_lowest_energies s2) (minEnergies td.optimizations) = false →
      iterate_service drv opt_store mol_geom td svc next_id =
        Except.error
          "Minimum energies reported by the torsiondrive package do not match ours!" := by
    intro he hmis
    subst he
    unfold iterate_service
    dsimp only
    rw [hjobs]
    dsimp only
    rw [if_neg (show ¬(0 < ([] : List (String × List γ)).length) by simp), hmis, if_pos rfl]
  have hmatch_eq : ∀ (he : batch = []),
      dictEq (drv.collect_lowest_energies s2) (minEnergies td.optimizations) = true →
      iterate_service drv opt_store mol_geom td svc next_id =
        Except.ok ({ td with stdout := td.stdout ++ "\n" ++ drv.captured s2 },
          { svc with service_state := s2 }, next_id, true) := by
    intro he hmatch
    subst he
    unfold iterate_service
    dsimp only
    rw [hjobs]
    dsimp only
    rw [if_neg (show ¬(0 < ([] : List (String × List γ)).length) by simp), hmatch,
      if_neg (show ¬(true = false) by simp)]
    rfl
  refine ⟨fun he => ⟨hmis_eq he, hmatch_eq he⟩, fun hne => ⟨_, _, _, hmain hne⟩, ?_⟩
  intro td' svc' nid' done2 hrun
  constructor
  · intro hd
    by_contra hne
    rw [hmain hne] at hrun
    rw [Except.ok.injEq] at hrun
    have h4 := congrArg (fun x : TDRecord × ServiceQueue σ × Nat × Bool => x.2.2.2) hrun
    simp only at h4
    rw [hd] at h4
    cases h4
  · intro hempty
    by_cases hdict : dictEq (drv.collect_lowest_energies s2)
        (minEnergies td.optimizations) = false
    · rw [hmis_eq hempty hdict] at hrun
      cases hrun
    · have hdict' : dictEq (drv.collect_lowest_energies s2)
          (minEnergies td.optimizations) = true := by
        cases hd : dictEq (drv.collect_lowest_energies s2) (minEnergies td.optimizations)
        · exact absurd hd hdict
        · rfl
      rw [hmatch_eq hempty hdict'] at hrun
      rw [Except.ok.injEq] at hrun
      have h4 := congrArg (fun x : TDRecord × ServiceQueue σ × Nat × Bool => x.2.2.2) hrun
      simp only at h4
      exact h4.symm

/-!
Concrete example data for the update_finished and service witnesses.
-/

def exOtherName : String := "mgr02"

def exResS : ResultPayload := ⟨true, false, none, false⟩

def exResF : ResultPayload := ⟨false, true, none, false⟩

def exResM : ResultPayload := ⟨false, false, none, false⟩

def exRecRun (i : Nat) : RecordRow := exRec i RecordStatusEnum.running (some exName)

def exDBUpd : DB :=
  { managers := [exMgr]
    tasks := [exTask 1 1 0, exTask 2 1 0, exTask 3 1 0, exTask 4 1 0, exTask 5 1 0]
    records := [exRecRun 1, exRecRun 2, exRecRun 3,
      exRec 4 RecordStatusEnum.complete none,
      exRec 5 RecordStatusEnum.running (some exOtherName)]
    now := 100 }

def exResultsC3 : List (Nat × ResultPayload) := [(50, exResS), (4, exResS), (5, exResS)]

def exOutC3 : DB × TaskReturnMetadata :=
  (update_finished exSR exCfg exDBUpd exName exResultsC3).toOption.getD (exDBUpd, ⟨[], []⟩)

def exResultsC6 : List (Nat × ResultPayload) := [(1, exResS), (2, exResF), (3, exResM)]

def exOutC6 : DB × TaskReturnMetadata :=
  (update_finished exSR exCfg exDBUpd exName exResultsC6).toOption.getD (exDBUpd, ⟨[], []⟩)

def exSRTrue : RecordRow → AutoResetConfig → Bool := fun _ _ => true

def exCfgOn : AutoResetConfig := ⟨true⟩

def exResultsC7 : List (Nat × ResultPayload) := [(2, exResF)]

def exOutC7 : DB × TaskReturnMetadata :=
  (update_finished exSRTrue exCfgOn exDBUpd exName exResultsC7).toOption.getD (exDBUpd, ⟨[], []⟩)

def exResultsC1 : List (Nat × ResultPayload) := [(1, exResS), (3, exResM), (2, exResF)]

def exResultsC1b : List (Nat × ResultPayload) := [(1, exResS), (2, exResF)]

def exOutC1 : DB × TaskReturnMetadata :=
  (update_finished exSR exCfg exDBUpd exName exResultsC1).toOption.getD (exDBUpd, ⟨[], []⟩)

def exOutC1b : DB × TaskReturnMetadata :=
  (update_finished exSR exCfg exDBUpd exName exResultsC1b).toOption.getD (exDBUpd, ⟨[], []⟩)

theorem exDBUpd_inj : taskRecordsInjective exDBUpd := by
  unfold taskRecordsInjective; decide

theorem update_finished_consistency_rejects_witness :
    taskRecordsInjective exDBUpd ∧
    (exResultsC3.map Prod.fst).Nodup ∧
    update_finished exSR exCfg exDBUpd exName exResultsC3 = Except.ok exOutC3 ∧
    (50, "Task does not exist in the task queue") ∈ exOutC3.2.rejected_info ∧
    (4, "Task is not in a running state") ∈ exOutC3.2.rejected_info ∧
    (5, "Task is claimed by another manager") ∈ exOutC3.2.rejected_info ∧
    findRecord exOutC3.1 4 = some (exRec 4 RecordStatusEnum.complete none) ∧
    findRecord exOutC3.1 5 = some (exRec 5 RecordStatusEnum.running (some exOtherName)) := by
  have h50 := update_finished_consistency_rejects exSR exCfg exDBUpd exName exResultsC3
    exOutC3.1 exOutC3.2 exDBUpd_inj (by decide) rfl 50 exResS (by decide)
  have h4 := update_finished_consistency_rejects exSR exCfg exDBUpd exName exResultsC3
    exOutC3.1 exOutC3.2 exDBUpd_inj (by decide) rfl 4 exResS (by decide)
  have h5 := update_finished_consistency_rejects exSR exCfg exDBUpd exName exResultsC3
    exOutC3.1 exOutC3.2 exDBUpd_inj (by decide) rfl 5 exResS (by decide)
  refine ⟨exDBUpd_inj, by decide, rfl, h50.1 rfl, ?_, ?_, ?_, ?_⟩
  · exact ((h4.2 (exTask 4 1 0) (exRec 4 RecordStatusEnum.complete none) rfl rfl).1
      (by decide)).1
  · exact ((h5.2 (exTask 5 1 0) (exRec 5 RecordStatusEnum.running (some exOtherName)) rfl rfl).2
      rfl (by decide)).1
  · exact ((h4.2 (exTask 4 1 0) (exRec 4 RecordStatusEnum.complete none) rfl rfl).1
      (by decide)).2
  · exact ((h5.2 (exTask 5 1 0) (exRec 5 RecordStatusEnum.running (some exOtherName)) rfl rfl).2
      rfl (by decide)).2

theorem update_finished_counters_witness :
    taskRecordsInjective exDBUpd ∧
    (exResultsC6.map Prod.fst).Nodup ∧
    findManager exDBUpd exName = some exMgr ∧
    update_finished exSR exCfg exDBUpd exName exResultsC6 = Except.ok exOutC6 ∧
    (∃ succ fails,
      exOutC6.2.accepted_ids = succ ++ fails ∧
      findManager exOutC6.1 exName = some
        { exMgr with
            successes := exMgr.successes + succ.length
            failures := exMgr.failures + fails.length
            rejected := exMgr.rejected + exOutC6.2.rejected_info.length } ∧
      (∀ tid ∈ succ, ∃ task rec', findTask exDBUpd tid = some task ∧
        findRecord exOutC6.1 task.record_id = some rec' ∧
        rec'.status = RecordStatusEnum.complete) ∧
      (∀ tid ∈ fails, ∃ task rec', findTask exDBUpd tid = some task ∧
        findRecord exOutC6.1 task.record_id = some rec' ∧
        (rec'.status = RecordStatusEnum.error ∨ rec'.status = RecordStatusEnum.waiting)) ∧
      (∀ e ∈ exOutC6.2.rejected_info, ∃ rr, (e.1, rr) ∈ exResultsC6)) :=
  ⟨exDBUpd_inj, by decide, rfl, rfl,
   update_finished_counters exSR exCfg exDBUpd exName exResultsC6 exOutC6.1 exOutC6.2 exMgr
     exDBUpd_inj (by decide) rfl rfl⟩

theorem update_finished_auto_reset_witness :
    taskRecordsInjective exDBUpd ∧
    (exResultsC7.map Prod.fst).Nodup ∧
    update_finished exSRTrue exCfgOn exDBUpd exName exResultsC7 = Except.ok exOutC7 ∧
    findRecord exOutC7.1 2 = some
      { record_id := 2, status := RecordStatusEnum.waiting, manager_name := none,
        modified_on := 0,
        compute_history := [⟨RecordStatusEnum.error, exName, none⟩] } ∧
    ((exCfgOn.enabled = false →
      ∀ rid rec rec', findRecord exDBUpd rid = some rec →
        findRecord exOutC7.1 rid = some rec' →
        rec'.status = RecordStatusEnum.waiting → rec = rec') ∧
    (∀ rid rec rec', findRecord exDBUpd rid = some rec →
      findRecord exOutC7.1 rid = some rec' →
      rec'.status = RecordStatusEnum.waiting → rec.status ≠ RecordStatusEnum.waiting →
      ∃ tid r2 task, (tid, r2) ∈ exResultsC7 ∧ findTask exDBUpd tid = some task ∧
        task.record_id = rid ∧
        r2.success = false ∧ r2.is_failed_operation = true ∧ r2.apply_raises = false ∧
        exCfgOn.enabled = true ∧ rec.status = RecordStatusEnum.running ∧
        rec.manager_name = some exName ∧
        exSRTrue (update_failed_task rec r2.error_type exName) exCfgOn = true)) :=
  ⟨exDBUpd_inj, by decide, rfl, rfl,
   update_finished_auto_reset exSRTrue exCfgOn exDBUpd exName exResultsC7 exOutC7.1 exOutC7.2
     exDBUpd_inj (by decide) rfl⟩

theorem update_finished_internal_error_isolation_witness :
    taskRecordsInjective exDBUpd ∧
    (exResultsC1.map Prod.fst).Nodup ∧
    findTask exDBUpd 3 = some (exTask 3 1 0) ∧
    findRecord exDBUpd 3 = some (exRecRun 3) ∧
    update_finished exSR exCfg exDBUpd exName exResultsC1 = Except.ok exOutC1 ∧
    update_finished exSR exCfg exDBUpd exName exResultsC1b = Except.ok exOutC1b ∧
    ((3, badReason exResM) ∈ exOutC1.2.rejected_info ∧
    (∃ rec', findRecord exOutC1.1 (exTask 3 1 0).record_id = some rec' ∧
      rec'.status = RecordStatusEnum.error ∧
      rec'.compute_history = (exRecRun 3).compute_history ++
        [⟨RecordStatusEnum.error, exName, some internal_fractal_error⟩]) ∧
    exOutC1b.2.accepted_ids = exOutC1.2.accepted_ids ∧
    (∃ X C, exOutC1.2.rejected_info = X ++ [(3, badReason exResM)] ++ C ∧
      exOutC1b.2.rejected_info = X ++ C) ∧
    (∀ rid, rid ≠ (exTask 3 1 0).record_id →
      findRecord exOutC1b.1 rid = findRecord exOutC1.1 rid)) :=
  ⟨exDBUpd_inj, by decide, rfl, rfl, rfl, rfl,
   update_finished_internal_error_isolation exSR exCfg exDBUpd exName
     [(1, exResS)] [(2, exResF)] 3 exResM exOutC1.1 exOutC1.2 exOutC1b.1 exOutC1b.2
     exDBUpd_inj (by decide) (exTask 3 1 0) (exRecRun 3) rfl rfl rfl rfl
     (Or.inr ⟨rfl, rfl⟩) rfl rfl⟩

/-!
Concrete torsiondrive driver data for the service witnesses.
-/

def exDrv : TDDriver Nat Nat :=
  { update_state := fun s _ => s + 1
    next_jobs := fun s => (s, if s == 1 then [("k1", [10, 20]), ("k2", [30])] else [])
    collect_lowest_energies := fun _ => []
    ser_key := fun k => k
    captured := fun _ => "td output" }

def exBatch : List (String × List Nat) := [("k1", [10, 20]), ("k2", [30])]

def exSvc : ServiceQueue Nat :=
  { record_id := 77, compute_tag := "tag0", compute_priority := 1, find_existing := true,
    service_state := 0, dependencies := [⟨7, "oldkey", 0⟩] }

def exTD : TDRecord := { record_id := 77, optimizations := [], stdout := "" }

def exOptStore : Nat → OptRecord := fun i => ⟨i, i, [0]⟩

def exMolGeom : Nat → Nat := fun i => i

theorem iterate_service_dependency_replacement_witness :
    exDrv.next_jobs (exDrv.update_state exSvc.service_state
      (buildTaskResults exOptStore exMolGeom exSvc.dependencies)) = (1, exBatch) ∧
    exBatch ≠ [] ∧
    (∃ td' svc' nid',
      iterate_service exDrv exOptStore exMolGeom exTD exSvc 100 =
        Except.ok (td', svc', nid', false) ∧
      svc'.dependencies.map (fun d => d.record_id) =
        List.range' 100 (exBatch.map (fun kv => kv.2.length)).sum ∧
      svc'.dependencies.length = (exBatch.map (fun kv => kv.2.length)).sum ∧
      nid' = 100 + (exBatch.map (fun kv => kv.2.length)).sum ∧
      (∀ d ∈ svc'.dependencies, 100 ≤ d.record_id) ∧
      ((∀ d ∈ exSvc.dependencies, d.record_id < 100) →
        ∀ d ∈ svc'.dependencies, d ∉ exSvc.dependencies)) :=
  ⟨rfl, by decide,
   iterate_service_dependency_replacement exDrv exOptStore exMolGeom exTD exSvc 100 1 exBatch
     rfl (by decide)⟩

def exDrvDone : TDDriver Nat Nat :=
  { update_state := fun s _ => s
    next_jobs := fun s => (s, [])
    collect_lowest_energies := fun _ => [("k1", some 5)]
    ser_key := fun k => k
    captured := fun _ => "final" }

def exTDDone : TDRecord :=
  { record_id := 78, optimizations := [⟨11, "k1", some 5⟩, ⟨12, "k1", some 9⟩],
    stdout := "log" }

def exSvcDone : ServiceQueue Nat :=
  { record_id := 78, compute_tag := "tag0", compute_priority := 1, find_existing := true,
    service_state := 0, dependencies := [] }

theorem iterate_service_done_witness :
    exDrvDone.next_jobs (exDrvDone.update_state exSvcDone.service_state
      (buildTaskResults exOptStore exMolGeom exSvcDone.dependencies)) =
      (0, ([] : List (String × List Nat))) ∧
    dictEq (exDrvDone.collect_lowest_energies 0) (minEnergies exTDDone.optimizations) = true ∧
    iterate_service exDrvDone exOptStore exMolGeom exTDDone exSvcDone 100 =
      Except.ok ({ exTDDone with stdout := exTDDone.stdout ++ "\n" ++ exDrvDone.captured 0 },
        { exSvcDone with service_state := 0 }, 100, true) := by
  have h := iterate_service_done exDrvDone exOptStore exMolGeom exTDDone exSvcDone 100 0
    ([] : List (String × List Nat)) rfl
  exact ⟨rfl, by decide, (h.1 rfl).2 (by decide)⟩

end QCFractal
